import Mathlib

/-!
Verification of the MediaPipe trace-builder core
(`mediapipe/framework/profiler/trace_builder.cc`).

This file gives a shallow embedding of the trace builder: the two
identifier interners (`StringIdMap`, `AddressIdMap`), the time-base
calibration (`SetBaseTime`), the event indexer, and the two trace
assemblers (`CreateTrace` for the aggregated mode and `CreateLog` for
the verbatim mode).  Pointers are modelled as natural-number
addresses, with an ambient `heap : Addr → String` giving the content
a stream-name pointer refers to; the C++ `unordered_map`s are
modelled as association lists (their iteration order is irrelevant to
every property proved below except the name table, which is
insertion-order independent because assigned ids are distinct).
-/

namespace TraceBuilderModel

/-- A memory address; `0` plays the role of the null pointer for
packet-data identities (`const void*`). -/
abbrev Addr := Nat

/-- Association-list lookup, the model of `unordered_map::find`. -/
def lookupA {α β : Type} [DecidableEq α] : List (α × β) → α → Option β
  | [], _ => none
  | (k, v) :: rest, key => if k = key then some v else lookupA rest key

/-- Association-list store, the model of `unordered_map::operator[] = v`:
update in place when the key is present, append otherwise. -/
def setA {α β : Type} [DecidableEq α] : List (α × β) → α → β → List (α × β)
  | [], key, val => [(key, val)]
  | (k, v) :: rest, key, val =>
    if k = key then (key, val) :: rest else (k, v) :: setA rest key val

/-- The model of `unordered_map::operator[]` used for reading: return the
stored value when present, otherwise insert and return the default. -/
def mapGetOrInsert {α β : Type} [DecidableEq α] (m : List (α × β)) (k : α) (d : β) :
    β × List (α × β) :=
  match lookupA m k with
  | some v => (v, m)
  | none => (d, m ++ [(k, d)])

/-- `std::numeric_limits<int64>::max()`, the "unset" sentinel of the
time-base fields. -/
def int64Max : Int := 2 ^ 63 - 1

/-- Modelled from the spec: a logical timestamp is either a plain value or
the "unset"/special sentinel (the concrete `Timestamp` class of
`mediapipe/framework/timestamp.h` is not part of the sources; the spec
describes `input_ts`/`packet_ts` as "logical timestamp ... or a sentinel
'unset'", so the sentinel family is collapsed into `none`). -/
abbrev LogicalTs := Option Int

/-- Modelled from the spec: the sentinel logical timestamp
(`Timestamp::Unset()`). -/
def tsUnset : LogicalTs := none

/-- Modelled from the spec: the raw `int64` carried by a logical
timestamp; the sentinel carries the minimum `int64` value. -/
def tsValue : LogicalTs → Int
  | none => -(2 ^ 63)
  | some v => v

/-- `kProfilerPacketEvents`: for each event-type, whether packet details
are logged.  The event-types are
`UNKNOWN, OPEN, PROCESS, CLOSE, NOT_READY, READY_FOR_PROCESS,
READY_FOR_CLOSE, THROTTLED, UNTHROTTLED, CPU_TASK_USER,
CPU_TASK_SYSTEM, GPU_TASK, DSP_TASK, TPU_TASK`. -/
def kProfilerPacketEvents : List Bool :=
  [false, true, true, true,
   false, false, false, false, false,
   true, true, true, true, true]

/-- `kProfilerStreamEvents`: for each event-type, whether StreamTraces
are desired. -/
def kProfilerStreamEvents : List Bool :=
  [false, true, true, true,
   false, false, false, false, false,
   true, true, false, false, false]

/-- Table lookup `kProfilerPacketEvents[event_type]`. -/
def packetEvent (t : Nat) : Bool := kProfilerPacketEvents.getD t false

/-- Table lookup `kProfilerStreamEvents[event_type]`. -/
def streamEvent (t : Nat) : Bool := kProfilerStreamEvents.getD t false

/-- One `TraceEvent`: `event_time` is the wall-clock instant in unix
micros (`ToUnixMicros` applied once and for all), `stream_id` is the
(possibly null) pointer to the stream-name string, `packet_data_id` the
packet-payload address with `0` for null. -/
structure TraceEvent where
  event_type : Nat
  is_finish : Bool
  node_id : Int
  thread_id : Int
  input_ts : LogicalTs
  packet_ts : LogicalTs
  event_time : Int
  stream_id : Option Addr
  packet_data_id : Addr
  deriving DecidableEq, Repr

/-- `TaskId`: each calculator task is identified by `node_id`,
`input_ts` and `event_type`; each stream hop by interned stream id,
`packet_ts` and `event_type`. -/
structure TaskId where
  id : Int
  ts : LogicalTs
  event_type : Nat
  deriving DecidableEq, Repr

/-- The task key `{event.node_id, event.input_ts, event.event_type}`. -/
def taskKeyOf (e : TraceEvent) : TaskId :=
  { id := e.node_id, ts := e.input_ts, event_type := e.event_type }

/-- `StringIdMap`: int32 identifiers for string object pointers, with a
canonical content-keyed map and a pointer-keyed accelerator cache. -/
structure StringIdMap where
  pointer_id_map : List (Addr × Int)
  string_id_map : List (String × Int)
  next_id : Int
  deriving DecidableEq, Repr

/-- `StringIdMap::operator[]`: null yields 0; otherwise consult the
pointer cache, then the content map, assigning `next_id++` to unseen
content and refreshing the pointer cache. -/
def StringIdMap.get (m : StringIdMap) (heap : Addr → String) (id : Option Addr) :
    Int × StringIdMap :=
  match id with
  | none => (0, m)
  | some p =>
    match lookupA m.pointer_id_map p with
    | some v => (v, m)
    | none =>
      let s := heap p
      match lookupA m.string_id_map s with
      | some v => (v, { m with pointer_id_map := m.pointer_id_map ++ [(p, v)] })
      | none =>
        (m.next_id,
         { pointer_id_map := m.pointer_id_map ++ [(p, m.next_id)],
           string_id_map := m.string_id_map ++ [(s, m.next_id)],
           next_id := m.next_id + 1 })

/-- `StringIdMap::clear()`: empties both maps; `next_id` is a separate
member and is left untouched by the source. -/
def StringIdMap.clear (m : StringIdMap) : StringIdMap :=
  { m with pointer_id_map := [], string_id_map := [] }

/-- `AddressIdMap`: int32 identifiers for object pointers. -/
structure AddressIdMap where
  pointer_id_map : List (Addr × Int)
  next_id : Int
  deriving DecidableEq, Repr

/-- `AddressIdMap::operator[]`: return the stored id, assigning
`next_id++` on first sight of an address. -/
def AddressIdMap.get (m : AddressIdMap) (id : Addr) : Int × AddressIdMap :=
  match lookupA m.pointer_id_map id with
  | some v => (v, m)
  | none =>
    (m.next_id,
     { pointer_id_map := m.pointer_id_map ++ [(id, m.next_id)],
       next_id := m.next_id + 1 })

/-- `AddressIdMap::clear()`: empties the map; `next_id` untouched. -/
def AddressIdMap.clear (m : AddressIdMap) : AddressIdMap :=
  { m with pointer_id_map := [] }

/-- Pad a list of names with `""` up to length `n` (`vector::resize`). -/
def padTo (l : List String) (n : Nat) : List String :=
  l ++ List.replicate (n - l.length) ""

/-- `GetIdNames`: a vector of id names indexed by id, built from the
content map. -/
def GetIdNames (m : StringIdMap) : List String :=
  m.string_id_map.foldl
    (fun acc p => (padTo acc (max acc.length (p.2.toNat + 1))).set p.2.toNat p.1)
    []

/-- `GraphTrace::StreamTrace`: all fields are proto-optional; `none`
models an unset field. -/
structure StreamTrace where
  stream_id : Option Int
  packet_timestamp : Option Int
  start_time : Option Int
  finish_time : Option Int
  packet_id : Option Int
  deriving DecidableEq, Repr

/-- `GraphTrace::CalculatorTrace`. -/
structure CalculatorTrace where
  node_id : Option Int
  event_type : Option Nat
  input_timestamp : Option Int
  thread_id : Option Int
  start_time : Option Int
  finish_time : Option Int
  input_trace : List StreamTrace
  output_trace : List StreamTrace
  deriving DecidableEq, Repr

/-- `GraphTrace`. -/
structure GraphTrace where
  base_time : Int
  base_timestamp : Int
  calculator_trace : List CalculatorTrace
  stream_name : List String
  deriving DecidableEq, Repr

/-- The state of `TraceBuilder::Impl`: the two persisted indices, the
two interners and the two time-base fields. -/
structure TraceBuilderState where
  task_events : List (TaskId × List TraceEvent)
  hop_events : List (TaskId × Option TraceEvent)
  stream_id_map : StringIdMap
  packet_data_id_map : AddressIdMap
  base_ts : Int
  base_time : Int
  deriving DecidableEq, Repr

/-- `TraceBuilder::Impl::Impl()`: define the zero ids by interning the
empty string (through a fresh pointer `emptyAddr` with
`heap emptyAddr = ""`) and the null packet address. -/
def TraceBuilderState.init (heap : Addr → String) (emptyAddr : Addr) :
    TraceBuilderState :=
  let sm0 : StringIdMap := { pointer_id_map := [], string_id_map := [], next_id := 0 }
  let sm1 := (sm0.get heap (some emptyAddr)).2
  let pm0 : AddressIdMap := { pointer_id_map := [], next_id := 0 }
  let pm1 := (pm0.get 0).2
  { task_events := [], hop_events := [], stream_id_map := sm1,
    packet_data_id_map := pm1, base_ts := int64Max, base_time := int64Max }

/-- `TraceBuilder::Clear()`: clears the invocation and hop indices only. -/
def TraceBuilderState.Clear (st : TraceBuilderState) : TraceBuilderState :=
  { st with task_events := [], hop_events := [] }

/-- The loop body of `SetBaseTime`: fold the minimum of the non-special
logical timestamps into `base_ts` and of the event times into
`base_time`. -/
def setBaseFold : List TraceEvent → Int → Int → Int × Int
  | [], bts, btime => (bts, btime)
  | e :: rest, bts, btime =>
    let bts1 := match e.input_ts with
      | some v => min bts v
      | none => bts
    let bts2 := match e.packet_ts with
      | some v => min bts1 v
      | none => bts1
    setBaseFold rest bts2 (min btime e.event_time)

/-- `TraceBuilder::Impl::SetBaseTime`: on the first call (detected by
`base_time_` holding the int64 sentinel) scan the snapshot for the
minimum times, defaulting to 0 when nothing lowered the sentinel. -/
def SetBaseTime (st : TraceBuilderState) (snapshot : List TraceEvent) :
    TraceBuilderState :=
  if st.base_time = int64Max then
    let (bts, btime) := setBaseFold snapshot st.base_ts st.base_time
    let btime1 := if btime = int64Max then 0 else btime
    let bts1 := if bts = int64Max then 0 else bts
    { st with base_ts := bts1, base_time := btime1 }
  else st

/-- `LogTimestamp`: a timestamp in micros relative to the base timestamp. -/
def logTimestamp (st : TraceBuilderState) (ts : LogicalTs) : Int :=
  tsValue ts - st.base_ts

/-- `LogTime`: a time in micros relative to the base time. -/
def logTime (st : TraceBuilderState) (t : Int) : Int :=
  t - st.base_time

/-- `FindOutputEvent`: look the event's stream-hop key up in the hop
index; `unordered_map::operator[]` default-inserts a null entry on a
miss. -/
def FindOutputEvent (st : TraceBuilderState) (heap : Addr → String) (e : TraceEvent) :
    Option TraceEvent × TraceBuilderState :=
  let r := st.stream_id_map.get heap e.stream_id
  let st1 := { st with stream_id_map := r.2 }
  let hop : TaskId := { id := r.1, ts := e.packet_ts, event_type := e.event_type }
  match lookupA st1.hop_events hop with
  | some v => (v, st1)
  | none => (none, { st1 with hop_events := st1.hop_events ++ [(hop, none)] })

/-- `BuildStreamTrace`: finish events get only `stream_id` and
`packet_timestamp`; all other events additionally get `finish_time`,
`packet_id`, and, when the hop index resolves a producing output event,
`start_time`. -/
def BuildStreamTrace (st : TraceBuilderState) (heap : Addr → String) (e : TraceEvent) :
    StreamTrace × TraceBuilderState :=
  if e.is_finish then
    let r := st.stream_id_map.get heap e.stream_id
    ({ stream_id := some r.1, packet_timestamp := some (logTimestamp st e.packet_ts),
       start_time := none, finish_time := none, packet_id := none },
     { st with stream_id_map := r.2 })
  else
    let r := st.stream_id_map.get heap e.stream_id
    let st1 := { st with stream_id_map := r.2 }
    let q := st1.packet_data_id_map.get e.packet_data_id
    let st2 := { st1 with packet_data_id_map := q.2 }
    let oe := FindOutputEvent st2 heap e
    ({ stream_id := some r.1, packet_timestamp := some (logTimestamp st2 e.packet_ts),
       start_time := Option.map (fun o => logTime st2 o.event_time) oe.1,
       finish_time := some (logTime st2 e.event_time),
       packet_id := some q.1 },
     oe.2)

/-- `min` against an accumulator initialised to `absl::InfiniteFuture()`
(modelled by `none`). -/
def minTimeAcc (o : Option Int) (t : Int) : Int :=
  match o with
  | none => t
  | some v => min v t

/-- The loop of `BuildCalculatorTrace`: identity fields are (re)set on
every event seen while the record holds no stream traces; start/finish
accumulators track the minimum event times per side; stream-event kinds
append a `StreamTrace` to the output (finish) or input (start) list. -/
def calcTraceGo (heap : Addr → String) :
    List TraceEvent → CalculatorTrace → Option Int → Option Int → TraceBuilderState →
    CalculatorTrace × Option Int × Option Int × TraceBuilderState
  | [], r, s, f, st => (r, s, f, st)
  | e :: rest, r, s, f, st =>
    let r1 := if r.input_trace.length + r.output_trace.length = 0 then
        { r with node_id := some e.node_id, event_type := some e.event_type,
                 input_timestamp := some (logTimestamp st e.input_ts),
                 thread_id := some e.thread_id }
      else r
    let s1 := if e.is_finish then s else some (minTimeAcc s e.event_time)
    let f1 := if e.is_finish then some (minTimeAcc f e.event_time) else f
    if streamEvent e.event_type then
      let tr := BuildStreamTrace st heap e
      if e.is_finish then
        calcTraceGo heap rest { r1 with output_trace := r1.output_trace ++ [tr.1] } s1 f1 tr.2
      else
        calcTraceGo heap rest { r1 with input_trace := r1.input_trace ++ [tr.1] } s1 f1 tr.2
    else
      calcTraceGo heap rest r1 s1 f1 st

/-- `BuildCalculatorTrace`: run the loop, then set `finish_time` and
`start_time` when their accumulators were lowered from infinity. -/
def BuildCalculatorTrace (st : TraceBuilderState) (heap : Addr → String)
    (task_events : List TraceEvent) : CalculatorTrace × TraceBuilderState :=
  let r0 : CalculatorTrace :=
    { node_id := none, event_type := none, input_timestamp := none, thread_id := none,
      start_time := none, finish_time := none, input_trace := [], output_trace := [] }
  let z := calcTraceGo heap task_events r0 none none st
  let r1 := match z.2.2.1 with
    | some v => { z.1 with finish_time := some (logTime z.2.2.2 v) }
    | none => z.1
  let r2 := match z.2.1 with
    | some v => { r1 with start_time := some (logTime z.2.2.2 v) }
    | none => r1
  (r2, z.2.2.2)

/-- `BuildEventLog`: the verbatim record for a single event. -/
def BuildEventLog (st : TraceBuilderState) (heap : Addr → String) (e : TraceEvent) :
    CalculatorTrace × TraceBuilderState :=
  let r0 : CalculatorTrace :=
    { node_id := none, event_type := none, input_timestamp := none, thread_id := none,
      start_time := none, finish_time := none, input_trace := [], output_trace := [] }
  let r1 := if e.is_finish then { r0 with finish_time := some (logTime st e.event_time) }
            else { r0 with start_time := some (logTime st e.event_time) }
  let r2 := { r1 with node_id := some e.node_id, event_type := some e.event_type }
  let r3 := if e.input_ts ≠ tsUnset then
      { r2 with input_timestamp := some (logTimestamp st e.input_ts) }
    else r2
  let r4 := { r3 with thread_id := some e.thread_id }
  if streamEvent e.event_type then
    match e.stream_id with
    | some _ =>
      let r := st.stream_id_map.get heap e.stream_id
      let st1 := { st with stream_id_map := r.2 }
      let q := st1.packet_data_id_map.get e.packet_data_id
      let st2 := { st1 with packet_data_id_map := q.2 }
      let tr : StreamTrace :=
        { stream_id := some r.1, packet_timestamp := some (logTimestamp st2 e.packet_ts),
          start_time := none, finish_time := none, packet_id := some q.1 }
      if e.is_finish then ({ r4 with output_trace := [tr] }, st2)
      else ({ r4 with input_trace := [tr] }, st2)
    | none => (r4, st)
  else (r4, st)

/-- The snapshot loop shared by `CreateTrace` and `CreateLog`: events of
the buffer whose `event_time` lies in `[begin_time, end_time)`, in
buffer order. -/
def snapshotOf (buffer : List TraceEvent) (begin_time end_time : Int) :
    List TraceEvent :=
  buffer.filter (fun ev => decide (begin_time ≤ ev.event_time ∧ ev.event_time < end_time))

/-- The indexing loop of `CreateTrace`: every packet-detail event is
appended to its task's list; finish events additionally (over)write the
hop index at their stream-hop key (whose stream id is interned here,
mutating the interner even for non-finish events). -/
def indexEvents (heap : Addr → String) :
    List TraceEvent → TraceBuilderState → TraceBuilderState
  | [], st => st
  | e :: rest, st =>
    if packetEvent e.event_type then
      let task := taskKeyOf e
      let r := st.stream_id_map.get heap e.stream_id
      let st1 := { st with stream_id_map := r.2 }
      let hop : TaskId := { id := r.1, ts := e.packet_ts, event_type := e.event_type }
      let st2 := if e.is_finish then
          { st1 with hop_events := setA st1.hop_events hop (some e) }
        else st1
      let st3 := { st2 with
        task_events := setA st2.task_events task
          ((lookupA st2.task_events task).getD [] ++ [e]) }
      indexEvents heap rest st3
    else indexEvents heap rest st

/-- The assembly loop of `CreateTrace`: non-packet events are logged
standalone; the first snapshot occurrence of each task key emits one
calculator trace built from everything indexed under that key. -/
def assembleGo (heap : Addr → String) :
    List TraceEvent → List TaskId → TraceBuilderState →
    List CalculatorTrace × List TaskId × TraceBuilderState
  | [], seen, st => ([], seen, st)
  | e :: rest, seen, st =>
    if packetEvent e.event_type then
      let task := taskKeyOf e
      if task ∈ seen then assembleGo heap rest seen st
      else
        let g := mapGetOrInsert st.task_events task []
        let st1 := { st with task_events := g.2 }
        let b := BuildCalculatorTrace st1 heap g.1
        let z := assembleGo heap rest (seen ++ [task]) b.2
        (b.1 :: z.1, z.2)
    else
      let b := BuildEventLog st heap e
      let z := assembleGo heap rest seen b.2
      (b.1 :: z.1, z.2)

/-- `TraceBuilder::Impl::CreateTrace` (aggregated mode). -/
def CreateTrace (st : TraceBuilderState) (heap : Addr → String)
    (buffer : List TraceEvent) (begin_time end_time : Int) :
    GraphTrace × TraceBuilderState :=
  let snapshot := snapshotOf buffer begin_time end_time
  let st1 := SetBaseTime st snapshot
  let st2 := indexEvents heap snapshot st1
  let z := assembleGo heap snapshot [] st2
  ({ base_time := st2.base_time, base_timestamp := st2.base_ts,
     calculator_trace := z.1, stream_name := GetIdNames z.2.2.stream_id_map },
   z.2.2)

/-- The logging loop of `CreateLog`. -/
def logGo (heap : Addr → String) :
    List TraceEvent → TraceBuilderState → List CalculatorTrace × TraceBuilderState
  | [], st => ([], st)
  | e :: rest, st =>
    let b := BuildEventLog st heap e
    let z := logGo heap rest b.2
    (b.1 :: z.1, z.2)

/-- `TraceBuilder::Impl::CreateLog` (verbatim mode). -/
def CreateLog (st : TraceBuilderState) (heap : Addr → String)
    (buffer : List TraceEvent) (begin_time end_time : Int) :
    GraphTrace × TraceBuilderState :=
  let snapshot := snapshotOf buffer begin_time end_time
  let st1 := SetBaseTime st snapshot
  let z := logGo heap snapshot st1
  ({ base_time := st1.base_time, base_timestamp := st1.base_ts,
     calculator_trace := z.1, stream_name := GetIdNames z.2.stream_id_map },
   z.2)

/-- A concrete heap for witnesses and counterexamples: address 5 holds
the stream name "s", every other address holds the empty string. -/
def heap0 : Addr → String := fun a => if a = 5 then "s" else ""

/-- A producer-side `PROCESS` finish event on stream "s" at packet
timestamp 0, wall time 100. -/
def evProd : TraceEvent :=
  { event_type := 2, is_finish := true, node_id := 1, thread_id := 1,
    input_ts := some 0, packet_ts := some 0, event_time := 100,
    stream_id := some 5, packet_data_id := 7 }

/-- A consumer-side `PROCESS` finish event with the same stream-hop key
as `evProd`, wall time 105. -/
def evCons : TraceEvent :=
  { event_type := 2, is_finish := true, node_id := 2, thread_id := 2,
    input_ts := some 0, packet_ts := some 0, event_time := 105,
    stream_id := some 5, packet_data_id := 7 }

/-- A consumer-side `PROCESS` start event with the same stream-hop key
as `evProd`, wall time 105. -/
def evConsStart : TraceEvent :=
  { event_type := 2, is_finish := false, node_id := 2, thread_id := 2,
    input_ts := some 0, packet_ts := some 0, event_time := 105,
    stream_id := some 5, packet_data_id := 7 }

/-- A `GPU_TASK` event (packet details logged, no stream traces) on
thread 1. -/
def evGpu1 : TraceEvent :=
  { event_type := 11, is_finish := false, node_id := 3, thread_id := 1,
    input_ts := some 0, packet_ts := tsUnset, event_time := 200,
    stream_id := none, packet_data_id := 0 }

/-- A second `GPU_TASK` event with the same task key as `evGpu1` but on
thread 2. -/
def evGpu2 : TraceEvent :=
  { event_type := 11, is_finish := true, node_id := 3, thread_id := 2,
    input_ts := some 0, packet_ts := tsUnset, event_time := 210,
    stream_id := none, packet_data_id := 0 }

/-- A producer-side `PROCESS` finish event with the same task key as
`evProd` (node 1, input timestamp 0) but on thread 2, wall time 105. -/
def evProd2 : TraceEvent :=
  { event_type := 2, is_finish := true, node_id := 1, thread_id := 2,
    input_ts := some 0, packet_ts := some 0, event_time := 105,
    stream_id := some 5, packet_data_id := 7 }

/-- A concrete builder state whose hop index already holds `evProd`
under the stream-hop key (stream id 1, packet timestamp 0, `PROCESS`)
and whose bases are calibrated to `base_ts = 0`, `base_time = 100`. -/
def stW : TraceBuilderState :=
  { task_events := [],
    hop_events := [({ id := 1, ts := some 0, event_type := 2 }, some evProd)],
    stream_id_map := (TraceBuilderState.init heap0 0).stream_id_map,
    packet_data_id_map := (TraceBuilderState.init heap0 0).packet_data_id_map,
    base_ts := 0, base_time := 100 }

/-- The task keys of the packet-detail events of a snapshot, in order. -/
def pKeys (evs : List TraceEvent) : List TaskId :=
  (evs.filter (fun e => packetEvent e.event_type)).map taskKeyOf

/-- All non-sentinel logical timestamps (`input_ts` then `packet_ts` per
event) occurring in a snapshot, in scan order. -/
def logicalValues : List TraceEvent → List Int
  | [] => []
  | e :: rest => e.input_ts.toList ++ e.packet_ts.toList ++ logicalValues rest

/-- The packet-detail events of a list belonging to one invocation
key, in order. -/
def keyEvents (k : TaskId) (evs : List TraceEvent) : List TraceEvent :=
  evs.filter (fun x => packetEvent x.event_type && decide (taskKeyOf x = k))

/-- The builder state of an aggregated call after snapshotting,
calibration and indexing, just before assembly starts. -/
def indexedState (st : TraceBuilderState) (heap : Addr → String)
    (buffer : List TraceEvent) (begin_time end_time : Int) : TraceBuilderState :=
  indexEvents heap (snapshotOf buffer begin_time end_time)
    (SetBaseTime st (snapshotOf buffer begin_time end_time))

/-- The invariant of a `StringIdMap` reachable from the seeded builder
state: the empty string owns id 0, every other content owns an id in
`[1, next_id)`, ids are surjective onto `[0, next_id)`, and the pointer
cache agrees with the content map. -/
structure SInv (heap : Addr → String) (m : StringIdMap) : Prop where
  empty_zero : lookupA m.string_id_map "" = some 0
  pos_of_ne : ∀ s v, lookupA m.string_id_map s = some v → s ≠ "" → 1 ≤ v
  ub : ∀ s v, lookupA m.string_id_map s = some v → v < m.next_id
  dense : ∀ i : Int, 0 ≤ i → i < m.next_id → ∃ s, lookupA m.string_id_map s = some i
  ptr_ok : ∀ p v, lookupA m.pointer_id_map p = some v →
    lookupA m.string_id_map (heap p) = some v

/-- The invariant of an `AddressIdMap` reachable from the seeded builder
state: the null address owns id 0, every other address an id in
`[1, next_id)`, and ids are surjective onto `[0, next_id)`. -/
structure AInv (m : AddressIdMap) : Prop where
  zero_zero : lookupA m.pointer_id_map 0 = some 0
  pos_of_ne : ∀ a v, lookupA m.pointer_id_map a = some v → a ≠ 0 → 1 ≤ v
  ub : ∀ a v, lookupA m.pointer_id_map a = some v → v < m.next_id
  dense : ∀ i : Int, 0 ≤ i → i < m.next_id → ∃ a, lookupA m.pointer_id_map a = some i

/-- The transfer entry a verbatim record carries for a stream event
with a non-null stream pointer: `stream_id`, `packet_timestamp` and
`packet_id` only. -/
def vTransfer (st : TraceBuilderState) (heap : Addr → String) (e : TraceEvent) :
    StreamTrace :=
  { stream_id := some (st.stream_id_map.get heap e.stream_id).1,
    packet_timestamp := some (logTimestamp st e.packet_ts),
    start_time := none, finish_time := none,
    packet_id := some (st.packet_data_id_map.get e.packet_data_id).1 }

/-- The four identity fields of a calculator trace record, as a tuple:
`node_id`, `event_type`, `input_timestamp`, `thread_id`. -/
def idFields (r : CalculatorTrace) :
    Option Int × Option Nat × Option Int × Option Int :=
  (r.node_id, r.event_type, r.input_timestamp, r.thread_id)

/-- A second concrete heap: addresses 5 and 6 are two distinct pointers
holding the same stream name "s"; every other address holds the empty
string. -/
def heap1 : Addr → String := fun a => if a = 5 ∨ a = 6 then "s" else ""

/-- A string interner holding one real entry: the content "s" (behind
pointer 5) with id 0, from a fresh (unseeded) map. -/
def smW : StringIdMap :=
  (({ pointer_id_map := [], string_id_map := [], next_id := 0 } :
    StringIdMap).get heap0 (some 5)).2

/-- An address interner holding one real entry: address 9 with id 0,
from a fresh (unseeded) map. -/
def amW : AddressIdMap :=
  (({ pointer_id_map := [], next_id := 0 } : AddressIdMap).get 9).2

/-- Run a sequence of `StringIdMap` lookups, keeping only the final
map: the reachable states of the string interner. -/
def runLookups (heap : Addr → String) (m : StringIdMap) : List (Option Addr) → StringIdMap
  | [] => m
  | k :: ks => runLookups heap (m.get heap k).2 ks

/-- Run a sequence of `AddressIdMap` lookups, keeping only the final
map: the reachable states of the address interner. -/
def runALookups (m : AddressIdMap) : List Addr → AddressIdMap
  | [] => m
  | a :: as_ => runALookups (m.get a).2 as_

/-! ### Association-list lemmas -/

theorem lookupA_append {α β : Type} [DecidableEq α] (l1 l2 : List (α × β)) (k : α) :
    lookupA (l1 ++ l2) k =
      (match lookupA l1 k with
       | some v => some v
       | none => lookupA l2 k) := by
  induction l1 with
  | nil => simp [lookupA]
  | cons hd tl ih =>
    simp only [List.cons_append, lookupA]
    split <;> simp [ih]

theorem lookupA_setA_self {α β : Type} [DecidableEq α] (l : List (α × β)) (k : α) (v : β) :
    lookupA (setA l k v) k = some v := by
  induction l with
  | nil => simp [setA, lookupA]
  | cons hd tl ih =>
    simp only [setA]
    split
    · simp [lookupA]
    · rename_i h
      simp [lookupA, h, ih]

/-! ### Frame lemmas: which state components each operation can change -/

theorem setBaseTime_frame (st : TraceBuilderState) (evs : List TraceEvent) :
    (SetBaseTime st evs).task_events = st.task_events ∧
    (SetBaseTime st evs).hop_events = st.hop_events ∧
    (SetBaseTime st evs).stream_id_map = st.stream_id_map ∧
    (SetBaseTime st evs).packet_data_id_map = st.packet_data_id_map := by
  unfold SetBaseTime
  split <;> simp

theorem findOutputEvent_frame (st : TraceBuilderState) (heap : Addr → String)
    (e : TraceEvent) :
    (FindOutputEvent st heap e).2.task_events = st.task_events ∧
    (FindOutputEvent st heap e).2.packet_data_id_map = st.packet_data_id_map ∧
    (FindOutputEvent st heap e).2.base_ts = st.base_ts ∧
    (FindOutputEvent st heap e).2.base_time = st.base_time := by
  unfold FindOutputEvent
  dsimp only
  split <;> simp

theorem buildStreamTrace_frame (st : TraceBuilderState) (heap : Addr → String)
    (e : TraceEvent) :
    (BuildStreamTrace st heap e).2.task_events = st.task_events ∧
    (BuildStreamTrace st heap e).2.base_ts = st.base_ts ∧
    (BuildStreamTrace st heap e).2.base_time = st.base_time := by
  unfold BuildStreamTrace
  split
  · simp
  · dsimp only
    have h := findOutputEvent_frame
      { st with
        stream_id_map := (st.stream_id_map.get heap e.stream_id).2,
        packet_data_id_map :=
          (({ st with stream_id_map := (st.stream_id_map.get heap e.stream_id).2
              : TraceBuilderState }).packet_data_id_map.get e.packet_data_id).2 }
      heap e
    exact ⟨h.1, h.2.2.1, h.2.2.2⟩

theorem buildEventLog_frame (st : TraceBuilderState) (heap : Addr → String)
    (e : TraceEvent) :
    (BuildEventLog st heap e).2.task_events = st.task_events ∧
    (BuildEventLog st heap e).2.hop_events = st.hop_events ∧
    (BuildEventLog st heap e).2.base_ts = st.base_ts ∧
    (BuildEventLog st heap e).2.base_time = st.base_time := by
  unfold BuildEventLog
  dsimp only
  split
  · split
    · split <;> simp
    · simp
  · simp

theorem calcTraceGo_frame (heap : Addr → String) :
    ∀ (evs : List TraceEvent) (r : CalculatorTrace) (s f : Option Int)
      (st : TraceBuilderState),
    (calcTraceGo heap evs r s f st).2.2.2.task_events = st.task_events ∧
    (calcTraceGo heap evs r s f st).2.2.2.base_ts = st.base_ts ∧
    (calcTraceGo heap evs r s f st).2.2.2.base_time = st.base_time
  | [], r, s, f, st => ⟨rfl, rfl, rfl⟩
  | e :: rest, r, s, f, st => by
    rw [calcTraceGo]
    dsimp only
    split
    · split <;>
      · refine ⟨?_, ?_, ?_⟩
        · rw [(calcTraceGo_frame heap rest _ _ _ _).1,
            (buildStreamTrace_frame st heap e).1]
        · rw [(calcTraceGo_frame heap rest _ _ _ _).2.1,
            (buildStreamTrace_frame st heap e).2.1]
        · rw [(calcTraceGo_frame heap rest _ _ _ _).2.2,
            (buildStreamTrace_frame st heap e).2.2]
    · exact calcTraceGo_frame heap rest _ _ _ st

theorem buildCalculatorTrace_frame (st : TraceBuilderState) (heap : Addr → String)
    (evs : List TraceEvent) :
    (BuildCalculatorTrace st heap evs).2.task_events = st.task_events ∧
    (BuildCalculatorTrace st heap evs).2.base_ts = st.base_ts ∧
    (BuildCalculatorTrace st heap evs).2.base_time = st.base_time := by
  unfold BuildCalculatorTrace
  dsimp only
  exact calcTraceGo_frame heap evs _ none none st

theorem indexEvents_frame (heap : Addr → String) :
    ∀ (evs : List TraceEvent) (st : TraceBuilderState),
    (indexEvents heap evs st).packet_data_id_map = st.packet_data_id_map ∧
    (indexEvents heap evs st).base_ts = st.base_ts ∧
    (indexEvents heap evs st).base_time = st.base_time
  | [], st => ⟨rfl, rfl, rfl⟩
  | e :: rest, st => by
    rw [indexEvents]
    dsimp only
    split
    · split <;> exact indexEvents_frame heap rest _
    · exact indexEvents_frame heap rest st

theorem assembleGo_frame (heap : Addr → String) :
    ∀ (evs : List TraceEvent) (seen : List TaskId) (st : TraceBuilderState),
    (assembleGo heap evs seen st).2.2.base_ts = st.base_ts ∧
    (assembleGo heap evs seen st).2.2.base_time = st.base_time
  | [], seen, st => ⟨rfl, rfl⟩
  | e :: rest, seen, st => by
    rw [assembleGo]
    dsimp only
    split
    · split
      · exact assembleGo_frame heap rest seen st
      · refine ⟨?_, ?_⟩
        · rw [(assembleGo_frame heap rest _ _).1,
            (buildCalculatorTrace_frame _ heap _).2.1]
        · rw [(assembleGo_frame heap rest _ _).2,
            (buildCalculatorTrace_frame _ heap _).2.2]
    · refine ⟨?_, ?_⟩
      · rw [(assembleGo_frame heap rest _ _).1,
          (buildEventLog_frame st heap e).2.2.1]
      · rw [(assembleGo_frame heap rest _ _).2,
          (buildEventLog_frame st heap e).2.2.2]

theorem logGo_frame (heap : Addr → String) :
    ∀ (evs : List TraceEvent) (st : TraceBuilderState),
    (logGo heap evs st).2.task_events = st.task_events ∧
    (logGo heap evs st).2.hop_events = st.hop_events ∧
    (logGo heap evs st).2.base_ts = st.base_ts ∧
    (logGo heap evs st).2.base_time = st.base_time
  | [], st => ⟨rfl, rfl, rfl, rfl⟩
  | e :: rest, st => by
    rw [logGo]
    dsimp only
    refine ⟨?_, ?_, ?_, ?_⟩
    · rw [(logGo_frame heap rest _).1, (buildEventLog_frame st heap e).1]
    · rw [(logGo_frame heap rest _).2.1, (buildEventLog_frame st heap e).2.1]
    · rw [(logGo_frame heap rest _).2.2.1, (buildEventLog_frame st heap e).2.2.1]
    · rw [(logGo_frame heap rest _).2.2.2, (buildEventLog_frame st heap e).2.2.2]

/-! ### C10, C9, C5 -/

/-- C10: `CreateLog` (verbatim mode) neither reads nor writes the
invocation index or the hop index: after any call, both indices are
exactly as they were before, so events observed only through verbatim
calls never become resolvable producers for later aggregated-mode
transfer correlation on the same builder. -/
theorem createLog_preserves_indices (st : TraceBuilderState) (heap : Addr → String)
    (buffer : List TraceEvent) (b en : Int) :
    (CreateLog st heap buffer b en).2.task_events = st.task_events ∧
    (CreateLog st heap buffer b en).2.hop_events = st.hop_events := by
  unfold CreateLog
  dsimp only
  constructor
  · rw [(logGo_frame heap _ _).1, (setBaseTime_frame st _).1]
  · rw [(logGo_frame heap _ _).2.1, (setBaseTime_frame st _).2.1]

/-- C9: every verbatim record has `start_time` set iff the event is
start-side and `finish_time` set iff it is finish-side (never both),
`input_timestamp` set iff `input_ts` is not the unset sentinel, and
carries at most one transfer entry, present exactly when the event kind
produces a stream-hop sub-record and the stream pointer is non-null,
populated with `stream_id`, `packet_timestamp` and `packet_id`, on the
output side for finish events and the input side otherwise, with no
producer/consumer correlation (the transfer's own start/finish times
stay unset). -/
theorem verbatim_record_shape (st : TraceBuilderState) (heap : Addr → String)
    (e : TraceEvent) :
    (BuildEventLog st heap e).1.start_time
      = (if e.is_finish then none else some (logTime st e.event_time)) ∧
    (BuildEventLog st heap e).1.finish_time
      = (if e.is_finish then some (logTime st e.event_time) else none) ∧
    (BuildEventLog st heap e).1.node_id = some e.node_id ∧
    (BuildEventLog st heap e).1.event_type = some e.event_type ∧
    (BuildEventLog st heap e).1.thread_id = some e.thread_id ∧
    (BuildEventLog st heap e).1.input_timestamp
      = (if e.input_ts = tsUnset then none else some (logTimestamp st e.input_ts)) ∧
    (BuildEventLog st heap e).1.output_trace
      = (if streamEvent e.event_type = true ∧ e.stream_id.isSome = true ∧
            e.is_finish = true
         then [vTransfer st heap e] else []) ∧
    (BuildEventLog st heap e).1.input_trace
      = (if streamEvent e.event_type = true ∧ e.stream_id.isSome = true ∧
            e.is_finish = false
         then [vTransfer st heap e] else []) := by
  unfold BuildEventLog vTransfer
  cases hf : e.is_finish <;> cases hst : streamEvent e.event_type <;>
    cases hsid : e.stream_id <;> cases hits : e.input_ts <;>
    simp [hf, hst, hsid, hits, tsUnset, ne_eq, ite_not, logTimestamp]

/-- C5 counterexample: interning one string into a fresh interner and
then calling `clear()` leaves `next_id` at 1 — the counter is not
reset — and re-interning the very same content yields the fresh id 1
instead of restarting the assignment at 0; the address variant likewise
keeps its counter across `clear()`. -/
theorem clear_keeps_counter_cex :
    ((({ pointer_id_map := [], string_id_map := [], next_id := 0 } :
        StringIdMap).get heap0 (some 5)).2.clear.next_id = 1) ∧
    (((({ pointer_id_map := [], string_id_map := [], next_id := 0 } :
        StringIdMap).get heap0 (some 5)).2.clear.get heap0 (some 5)).1 = 1) ∧
    ((({ pointer_id_map := [], next_id := 0 } :
        AddressIdMap).get 9).2.clear.next_id = 1) := by
  decide

/-- C5 (amended): for both interner variants, `clear()` empties all
maps but leaves the next-id counter unchanged, so the id assignment
continues instead of restarting: the first lookup after a clear is
assigned the old `next_id`, and previously interned content therefore
receives a different integer than any id it held before the clear
(previously assigned ids being below the counter). -/
theorem clear_amended :
    (∀ m : StringIdMap, m.clear.pointer_id_map = [] ∧ m.clear.string_id_map = [] ∧
        m.clear.next_id = m.next_id) ∧
    (∀ (m : StringIdMap) (heap : Addr → String) (p : Addr),
        (m.clear.get heap (some p)).1 = m.next_id) ∧
    (∀ (m : StringIdMap) (heap : Addr → String) (p : Addr) (v : Int),
        lookupA m.string_id_map (heap p) = some v → v < m.next_id →
        (m.clear.get heap (some p)).1 ≠ v) ∧
    (∀ m : AddressIdMap, m.clear.pointer_id_map = [] ∧ m.clear.next_id = m.next_id) ∧
    (∀ (m : AddressIdMap) (a : Addr), (m.clear.get a).1 = m.next_id) ∧
    (∀ (m : AddressIdMap) (a : Addr) (v : Int),
        lookupA m.pointer_id_map a = some v → v < m.next_id →
        (m.clear.get a).1 ≠ v) := by
  refine ⟨fun m => ⟨rfl, rfl, rfl⟩, fun m heap p => rfl, ?_,
    fun m => ⟨rfl, rfl⟩, fun m a => rfl, ?_⟩
  · intro m heap p v _ hlt
    show m.next_id ≠ v
    omega
  · intro m a v _ hlt
    show m.next_id ≠ v
    omega

/-- Witness for the amended C5: with the concrete one-entry interners,
re-interning the old content after a clear does not return the id 0 it
held before. -/
theorem clear_amended_witness :
    (smW.clear.get heap0 (some 5)).1 ≠ 0 ∧ (amW.clear.get 9).1 ≠ 0 :=
  ⟨clear_amended.2.2.1 smW heap0 5 0 (by decide) (by decide),
   clear_amended.2.2.2.2.2 amW 9 0 (by decide) (by decide)⟩

/-! ### C1: transfer correlation -/

theorem sget_get (m : StringIdMap) (heap : Addr → String) (k : Option Addr) :
    (m.get heap k).2.get heap k = ((m.get heap k).1, (m.get heap k).2) := by
  cases k with
  | none => rfl
  | some p =>
    unfold StringIdMap.get
    dsimp only
    cases h1 : lookupA m.pointer_id_map p with
    | some v => simp [h1]
    | none =>
      cases h2 : lookupA m.string_id_map (heap p) with
      | some v => simp [h1, h2, lookupA_append, lookupA]
      | none => simp [h1, h2, lookupA_append, lookupA]

/-- C1 counterexample: a producer-side `PROCESS` finish event at wall
time 100 and a consumer-side finish event with the same stream-hop key
(stream "s", packet timestamp 0, `PROCESS`) at wall time 105, traced in
aggregated mode over the window `[0, 1000)`, yield transfer records
with neither `start_time` nor `finish_time` set — the claim demands
`start_time = 0` and `finish_time = 5` relative to the base 100 on the
consumer event's record.  In this code finish-side events get only
`stream_id` and `packet_timestamp`; the hop-index correlation runs for
start-side events. -/
theorem transfer_correlation_cex :
    ((CreateTrace (TraceBuilderState.init heap0 0) heap0 [evProd, evCons]
        0 1000).1.calculator_trace.map
        (fun c => c.output_trace.map (fun t => (t.start_time, t.finish_time))))
      = [[(none, none)], [(none, none)]] ∧
    (CreateTrace (TraceBuilderState.init heap0 0) heap0 [evProd, evCons]
        0 1000).1.base_time = 100 := by
  decide

/-- C1 (amended): the shared transfer-building rule correlates
start-side events: for a finish-side event the `StreamTrace` carries
only `stream_id` and `packet_timestamp`, while for a start-side event
it additionally carries `finish_time` (the event's wall time relative
to base), `packet_id` (the interned payload identity) and, exactly when
the hop index holds a producer finish event under the key
(interned stream id, `packet_ts`, event kind), `start_time` (that
producer's wall time relative to base); with no matching producer
entry, `start_time` is left unset. -/
theorem transfer_correlation_amended (st : TraceBuilderState) (heap : Addr → String)
    (e : TraceEvent) :
    (e.is_finish = true →
      (BuildStreamTrace st heap e).1 =
        { stream_id := some (st.stream_id_map.get heap e.stream_id).1,
          packet_timestamp := some (logTimestamp st e.packet_ts),
          start_time := none, finish_time := none, packet_id := none }) ∧
    (e.is_finish = false →
      (BuildStreamTrace st heap e).1 =
        { stream_id := some (st.stream_id_map.get heap e.stream_id).1,
          packet_timestamp := some (logTimestamp st e.packet_ts),
          start_time :=
            (match lookupA st.hop_events
                { id := (st.stream_id_map.get heap e.stream_id).1,
                  ts := e.packet_ts, event_type := e.event_type } with
             | some (some o) => some (logTime st o.event_time)
             | some none => none
             | none => none),
          finish_time := some (logTime st e.event_time),
          packet_id := some (st.packet_data_id_map.get e.packet_data_id).1 }) := by
  constructor
  · intro h
    simp [BuildStreamTrace, h]
  · intro h
    simp only [BuildStreamTrace, h, Bool.false_eq_true, if_false, FindOutputEvent,
      sget_get]
    cases hl : lookupA st.hop_events
        { id := (st.stream_id_map.get heap e.stream_id).1,
          ts := e.packet_ts, event_type := e.event_type } with
    | none => simp [hl, logTimestamp, logTime]
    | some v => cases v <;> simp [hl, logTimestamp, logTime]

/-- Witness for the amended C1: at the concrete state `stW` (hop index
holding the producer `evProd` with wall time 100, bases `(0, 100)`),
the consumer start-side event `evConsStart` at wall time 105 gets a
transfer with `start_time = 0` and `finish_time = 5`, while the
consumer finish event `evCons` gets neither. -/
theorem transfer_correlation_amended_witness :
    (BuildStreamTrace stW heap0 evConsStart).1.start_time = some 0 ∧
    (BuildStreamTrace stW heap0 evConsStart).1.finish_time = some 5 ∧
    (BuildStreamTrace stW heap0 evCons).1.start_time = none ∧
    (BuildStreamTrace stW heap0 evCons).1.finish_time = none := by
  have h1 := (transfer_correlation_amended stW heap0 evConsStart).2 (by decide)
  have h2 := (transfer_correlation_amended stW heap0 evCons).1 (by decide)
  rw [h1, h2]
  decide

/-! ### C8: identity fields of an aggregated record -/

theorem calcTraceGo_identity_frozen (heap : Addr → String) :
    ∀ (evs : List TraceEvent) (r : CalculatorTrace) (s f : Option Int)
      (st : TraceBuilderState),
    r.input_trace.length + r.output_trace.length ≠ 0 →
    idFields (calcTraceGo heap evs r s f st).1 = idFields r
  | [], r, s, f, st, h => rfl
  | e :: rest, r, s, f, st, h => by
    rw [calcTraceGo]
    dsimp only
    rw [if_neg h]
    split
    · split
      · rw [calcTraceGo_identity_frozen heap rest _ _ _ _
          (by simp only [List.length_append, List.length_cons, List.length_nil]; omega)]
        rfl
      · rw [calcTraceGo_identity_frozen heap rest _ _ _ _
          (by simp only [List.length_append, List.length_cons, List.length_nil]; omega)]
        rfl
    · exact calcTraceGo_identity_frozen heap rest _ _ _ _ h

theorem calcTraceGo_nostream (heap : Addr → String) :
    ∀ (evs : List TraceEvent) (r : CalculatorTrace) (s f : Option Int)
      (st : TraceBuilderState),
    (∀ e ∈ evs, streamEvent e.event_type = false) →
    r.input_trace = [] → r.output_trace = [] →
    (calcTraceGo heap evs r s f st).1.input_trace = [] ∧
    (calcTraceGo heap evs r s f st).1.output_trace = [] ∧
    idFields (calcTraceGo heap evs r s f st).1 =
      (match evs.getLast? with
       | none => idFields r
       | some e => (some e.node_id, some e.event_type,
           some (logTimestamp st e.input_ts), some e.thread_id))
  | [], r, s, f, st, _, hi, ho => ⟨hi, ho, rfl⟩
  | e :: rest, r, s, f, st, hall, hi, ho => by
    have hstep : ∀ x ∈ rest, streamEvent x.event_type = false :=
      fun x hx => hall x (List.mem_cons_of_mem e hx)
    have hse : streamEvent e.event_type = false :=
      hall e (List.mem_cons_self e rest)
    rw [calcTraceGo]
    dsimp only
    simp only [hi, ho, List.length_nil, Nat.add_zero, eq_self_iff_true, if_true,
      hse, Bool.false_eq_true, if_false]
    refine ⟨?_, ?_, ?_⟩
    · exact (calcTraceGo_nostream heap rest _ _ _ _ hstep rfl rfl).1
    · exact (calcTraceGo_nostream heap rest _ _ _ _ hstep rfl rfl).2.1
    · rw [(calcTraceGo_nostream heap rest _ _ _ _ hstep rfl rfl).2.2]
      cases rest with
      | nil => rfl
      | cons b l =>
        rw [List.getLast?_cons_cons]
        cases hq : (b :: l).getLast? with
        | none => exact absurd (List.getLast?_eq_none_iff.mp hq) (by simp)
        | some a => rfl

theorem buildCalculatorTrace_idFields (st : TraceBuilderState) (heap : Addr → String)
    (evs : List TraceEvent) :
    idFields (BuildCalculatorTrace st heap evs).1 =
      idFields (calcTraceGo heap evs
        { node_id := none, event_type := none, input_timestamp := none,
          thread_id := none, start_time := none, finish_time := none,
          input_trace := [], output_trace := [] } none none st).1 := by
  unfold BuildCalculatorTrace
  dsimp only
  split <;> split <;> rfl

/-- C8 counterexample: for the event list `[evGpu1, evGpu2]` — two
events sharing one task key of kind `GPU_TASK`, which carries packet
detail but produces no stream-hop sub-records — the aggregated record's
`thread_id` comes from the second (last) event, not from the first:
the identity fields are re-written on every event processed while the
record still holds no stream traces. -/
theorem calculator_identity_cex :
    taskKeyOf evGpu1 = taskKeyOf evGpu2 ∧
    evGpu1.thread_id = 1 ∧
    (BuildCalculatorTrace stW heap0 [evGpu1, evGpu2]).1.thread_id = some 2 := by
  decide

/-- C8 (amended): for an indexed event list of a single event type `t`
(as every list stored under one invocation key is), the identity fields
of the aggregated record come from the *first* event whenever `t`
produces stream-hop sub-records (the first event then immediately
freezes them by appending a stream trace), and from the *last* event
otherwise (each event re-writes them while the record holds no stream
traces).  Since every event in an indexed list shares `node_id`,
`event_type` and `input_ts`, only `thread_id` can differ from the first
event's values. -/
theorem calculator_identity_amended (st : TraceBuilderState) (heap : Addr → String)
    (t : Nat) (evs : List TraceEvent) (hall : ∀ e ∈ evs, e.event_type = t) :
    (streamEvent t = true →
      idFields (BuildCalculatorTrace st heap evs).1 =
        (match evs.head? with
         | none => (none, none, none, none)
         | some e => (some e.node_id, some e.event_type,
             some (logTimestamp st e.input_ts), some e.thread_id))) ∧
    (streamEvent t = false →
      idFields (BuildCalculatorTrace st heap evs).1 =
        (match evs.getLast? with
         | none => (none, none, none, none)
         | some e => (some e.node_id, some e.event_type,
             some (logTimestamp st e.input_ts), some e.thread_id))) := by
  constructor
  · intro hs
    rw [buildCalculatorTrace_idFields]
    cases evs with
    | nil => rfl
    | cons e rest =>
      have hse : streamEvent e.event_type = true := by
        rw [hall e (List.mem_cons_self e rest)]
        exact hs
      rw [calcTraceGo]
      dsimp only
      simp only [List.length_nil, Nat.add_zero, eq_self_iff_true, if_true, hse]
      split <;>
      · rw [calcTraceGo_identity_frozen heap rest _ _ _ _ (by simp)]
        rfl
  · intro hs
    rw [buildCalculatorTrace_idFields]
    have h := calcTraceGo_nostream heap evs
      { node_id := none, event_type := none, input_timestamp := none,
        thread_id := none, start_time := none, finish_time := none,
        input_trace := [], output_trace := [] } none none st
      (fun x hx => by rw [hall x hx]; exact hs) rfl rfl
    rw [h.2.2]
    cases hq : evs.getLast? <;> rfl

/-- Witness for the amended C8: a `PROCESS` list (stream-hop producing)
takes identity from its first event — thread 1 — while a `GPU_TASK`
list (no stream-hop sub-records) takes identity from its last event —
thread 2. -/
theorem calculator_identity_amended_witness :
    idFields (BuildCalculatorTrace stW heap0 [evProd, evProd2]).1
      = (some 1, some 2, some 0, some 1) ∧
    idFields (BuildCalculatorTrace stW heap0 [evGpu1, evGpu2]).1
      = (some 3, some 11, some 0, some 2) := by
  have h1 := (calculator_identity_amended stW heap0 2 [evProd, evProd2]
    (by decide)).1 (by decide)
  have h2 := (calculator_identity_amended stW heap0 11 [evGpu1, evGpu2]
    (by decide)).2 (by decide)
  rw [h1, h2]
  decide

/-! ### C3: time-base calibration -/

theorem foldlMin_mem (l : List Int) (a : Int) :
    l.foldl min a = a ∨ l.foldl min a ∈ l := by
  induction l generalizing a with
  | nil => exact Or.inl rfl
  | cons x xs ih =>
    simp only [List.foldl_cons]
    rcases ih (min a x) with h | h
    · rcases min_choice a x with hm | hm
      · exact Or.inl (h.trans hm)
      · exact Or.inr (by rw [h, hm]; exact List.mem_cons_self x xs)
    · exact Or.inr (List.mem_cons_of_mem x h)

theorem foldlMin_from_sentinel (l : List Int) (h : ∀ v ∈ l, v < int64Max) :
    (if l.foldl min int64Max = int64Max then 0 else l.foldl min int64Max)
        = l.min?.getD 0 ∧
    (if l.foldl min int64Max = int64Max then (0 : Int) else l.foldl min int64Max)
        ≠ int64Max := by
  cases l with
  | nil =>
    constructor
    · simp [List.min?]
    · simp only [List.foldl_nil, if_pos rfl]
      decide
  | cons x xs =>
    have hx : min int64Max x = x :=
      min_eq_right (le_of_lt (h x (List.mem_cons_self x xs)))
    have hmem : xs.foldl min x = x ∨ xs.foldl min x ∈ xs := foldlMin_mem xs x
    have hlt : xs.foldl min x < int64Max := by
      rcases hmem with hm | hm
      · rw [hm]; exact h x (List.mem_cons_self x xs)
      · exact h _ (List.mem_cons_of_mem x hm)
    have hne : xs.foldl min x ≠ int64Max := ne_of_lt hlt
    simp only [List.foldl_cons, hx, List.min?]
    rw [if_neg hne]
    exact ⟨rfl, hne⟩

theorem setBaseFold_eq :
    ∀ (evs : List TraceEvent) (bts btime : Int),
    setBaseFold evs bts btime =
      ((logicalValues evs).foldl min bts,
       (evs.map (fun e => e.event_time)).foldl min btime)
  | [], bts, btime => rfl
  | e :: rest, bts, btime => by
    rw [setBaseFold]
    rw [setBaseFold_eq rest]
    cases hi : e.input_ts <;> cases hp : e.packet_ts <;>
      simp [logicalValues, hi, hp, List.foldl_append, Option.toList]

/-- C3: the time base is computed at most once per builder: when
`base_time` already differs from the int64 sentinel, `SetBaseTime` is a
no-op; on the first (sentinel) call it records the minimum event time
and the minimum non-sentinel logical timestamp, both defaulting to 0
when nothing lowered the sentinel, and afterwards `base_time` is no
longer the sentinel (so all later calls are no-ops); neither
`CreateTrace` nor `CreateLog` touches the bases outside `SetBaseTime`;
and an event at a wall time earlier than the recorded base yields a
negative relative timestamp. -/
theorem base_time_calibration :
    (∀ (st : TraceBuilderState) (snapshot : List TraceEvent),
        st.base_time ≠ int64Max → SetBaseTime st snapshot = st) ∧
    (∀ (st : TraceBuilderState) (snapshot : List TraceEvent),
        st.base_time = int64Max → st.base_ts = int64Max →
        (∀ e ∈ snapshot, e.event_time < int64Max) →
        (∀ v ∈ logicalValues snapshot, v < int64Max) →
        (SetBaseTime st snapshot).base_time
            = ((snapshot.map (fun e => e.event_time)).min?.getD 0) ∧
        (SetBaseTime st snapshot).base_ts
            = ((logicalValues snapshot).min?.getD 0) ∧
        (SetBaseTime st snapshot).base_time ≠ int64Max) ∧
    (∀ (heap : Addr → String) (st : TraceBuilderState) (buffer : List TraceEvent)
        (b en : Int),
        (CreateTrace st heap buffer b en).2.base_time
            = (SetBaseTime st (snapshotOf buffer b en)).base_time ∧
        (CreateTrace st heap buffer b en).2.base_ts
            = (SetBaseTime st (snapshotOf buffer b en)).base_ts ∧
        (CreateLog st heap buffer b en).2.base_time
            = (SetBaseTime st (snapshotOf buffer b en)).base_time ∧
        (CreateLog st heap buffer b en).2.base_ts
            = (SetBaseTime st (snapshotOf buffer b en)).base_ts) ∧
    (∀ (st : TraceBuilderState) (t : Int), t < st.base_time → logTime st t < 0) := by
  refine ⟨?_, ?_, ?_, ?_⟩
  · intro st snapshot h
    simp [SetBaseTime, h]
  · intro st snapshot h1 h2 ht hts
    unfold SetBaseTime
    rw [if_pos h1, setBaseFold_eq, h1, h2]
    have hA := foldlMin_from_sentinel (snapshot.map (fun e => e.event_time))
      (by intro v hv; obtain ⟨e, he, rfl⟩ := List.mem_map.mp hv; exact ht e he)
    have hB := foldlMin_from_sentinel (logicalValues snapshot) hts
    exact ⟨hA.1, hB.1, hA.2⟩
  · intro heap st buffer b en
    unfold CreateTrace CreateLog
    dsimp only
    refine ⟨?_, ?_, ?_, ?_⟩
    · rw [(assembleGo_frame heap _ _ _).2, (indexEvents_frame heap _ _).2.2]
    · rw [(assembleGo_frame heap _ _ _).1, (indexEvents_frame heap _ _).2.1]
    · rw [(logGo_frame heap _ _).2.2.2]
    · rw [(logGo_frame heap _ _).2.2.1]
  · intro st t h
    unfold logTime
    omega

/-- Witness for C3: a calibrated state (base 100) is untouched by a
second calibration; a fresh builder calibrates to the minimum times of
its first snapshot; an event time below the base maps to a negative
relative time. -/
theorem base_time_calibration_witness :
    SetBaseTime stW [evProd] = stW ∧
    (SetBaseTime (TraceBuilderState.init heap0 0) [evProd]).base_time = 100 ∧
    (SetBaseTime (TraceBuilderState.init heap0 0) [evProd]).base_ts = 0 ∧
    logTime stW 99 < 0 := by
  refine ⟨base_time_calibration.1 stW [evProd] (by decide), ?_, ?_,
    base_time_calibration.2.2.2 stW 99 (by decide)⟩
  · rw [(base_time_calibration.2.1 (TraceBuilderState.init heap0 0) [evProd]
      (by decide) (by decide) (by decide) (by decide)).1]
    decide
  · rw [(base_time_calibration.2.1 (TraceBuilderState.init heap0 0) [evProd]
      (by decide) (by decide) (by decide) (by decide)).2.1]
    decide

/-! ### C2 and C7: aggregated emission and grouping -/

theorem pKeys_cons (e : TraceEvent) (rest : List TraceEvent) :
    pKeys (e :: rest) =
      if packetEvent e.event_type then taskKeyOf e :: pKeys rest else pKeys rest := by
  unfold pKeys
  by_cases h : packetEvent e.event_type <;> simp [List.filter_cons, h]

theorem sdiff_insert_card {α : Type} [DecidableEq α] (s t : Finset α) (a : α)
    (ha : a ∉ t) :
    (insert a s \ t).card = (s \ insert a t).card + 1 := by
  have hset : insert a s \ t = insert a (s \ insert a t) := by
    ext x
    by_cases hxa : x = a <;> simp [hxa, ha]
  rw [hset, Finset.card_insert_of_not_mem (by simp)]

theorem logGo_length (heap : Addr → String) :
    ∀ (evs : List TraceEvent) (st : TraceBuilderState),
    (logGo heap evs st).1.length = evs.length
  | [], _ => rfl
  | e :: rest, st => by
    rw [logGo]
    dsimp only
    rw [List.length_cons, List.length_cons, logGo_length heap rest]

theorem assembleGo_length (heap : Addr → String) :
    ∀ (evs : List TraceEvent) (seen : List TaskId) (st : TraceBuilderState),
    (assembleGo heap evs seen st).1.length =
      ((pKeys evs).toFinset \ seen.toFinset).card +
      (evs.filter (fun e => !(packetEvent e.event_type))).length
  | [], seen, st => by simp [assembleGo, pKeys]
  | e :: rest, seen, st => by
    rw [assembleGo]
    dsimp only
    split
    · rename_i hp
      split
      · rename_i hmem
        rw [assembleGo_length heap rest seen st, pKeys_cons, if_pos hp,
          List.toFinset_cons,
          Finset.insert_sdiff_of_mem _ (List.mem_toFinset.mpr hmem),
          List.filter_cons_of_neg (by simp [hp])]
      · rename_i hmem
        rw [List.length_cons,
          assembleGo_length heap rest (seen ++ [taskKeyOf e]) _,
          pKeys_cons, if_pos hp, List.toFinset_cons,
          List.filter_cons_of_neg (by simp [hp])]
        have hms : (seen ++ [taskKeyOf e]).toFinset
            = insert (taskKeyOf e) seen.toFinset := by
          simp [List.toFinset_append, Finset.insert_eq, Finset.union_comm]
        rw [hms,
          sdiff_insert_card (pKeys rest).toFinset seen.toFinset (taskKeyOf e)
            (fun hc => hmem (List.mem_toFinset.mp hc))]
        omega
    · rename_i hp
      rw [List.length_cons, assembleGo_length heap rest seen _, pKeys_cons,
        if_neg hp, List.filter_cons_of_pos (by simp [hp])]
      rw [List.length_cons]
      omega

theorem indexEvents_taskList (heap : Addr → String) :
    ∀ (evs : List TraceEvent) (st : TraceBuilderState) (k : TaskId),
    (∀ e ∈ evs, packetEvent e.event_type = true ∧ taskKeyOf e = k) → evs ≠ [] →
    lookupA (indexEvents heap evs st).task_events k
      = some ((lookupA st.task_events k).getD [] ++ evs)
  | [], _, _, _, hne => absurd rfl hne
  | e :: rest, st, k, hall, _ => by
    have hp := (hall e (List.mem_cons_self e rest)).1
    have hk := (hall e (List.mem_cons_self e rest)).2
    rw [indexEvents]
    dsimp only
    rw [if_pos hp, hk]
    cases hf : e.is_finish <;>
      simp only [Bool.false_eq_true, if_false, if_true] <;>
      [skip; skip] <;>
    · cases rest with
      | nil =>
        rw [indexEvents]
        simp [lookupA_setA_self]
      | cons b l =>
        rw [indexEvents_taskList heap (b :: l) _ k
          (fun x hx => hall x (List.mem_cons_of_mem e hx)) (by simp)]
        simp [lookupA_setA_self]

theorem assembleGo_allSeen (heap : Addr → String) :
    ∀ (evs : List TraceEvent) (seen : List TaskId) (st : TraceBuilderState),
    (∀ e ∈ evs, packetEvent e.event_type = true ∧ taskKeyOf e ∈ seen) →
    assembleGo heap evs seen st = ([], seen, st)
  | [], _, _, _ => rfl
  | e :: rest, seen, st, hall => by
    rw [assembleGo]
    dsimp only
    rw [if_pos (hall e (List.mem_cons_self e rest)).1,
      if_pos (hall e (List.mem_cons_self e rest)).2]
    exact assembleGo_allSeen heap rest seen st
      (fun x hx => hall x (List.mem_cons_of_mem e hx))

theorem createTrace_singleKey (heap : Addr → String) (st : TraceBuilderState)
    (buffer : List TraceEvent) (b en : Int) (k : TaskId)
    (hne : snapshotOf buffer b en ≠ [])
    (hall : ∀ e ∈ snapshotOf buffer b en,
      packetEvent e.event_type = true ∧ taskKeyOf e = k) :
    (CreateTrace st heap buffer b en).1.calculator_trace =
      [(BuildCalculatorTrace
          (indexEvents heap (snapshotOf buffer b en)
            (SetBaseTime st (snapshotOf buffer b en))) heap
          ((lookupA st.task_events k).getD [] ++ snapshotOf buffer b en)).1] := by
  unfold CreateTrace
  dsimp only
  cases hsr : snapshotOf buffer b en with
  | nil => exact absurd hsr hne
  | cons e rest =>
    rw [hsr] at hall
    have hidx := indexEvents_taskList heap (e :: rest)
      (SetBaseTime st (e :: rest)) k hall (by simp)
    rw [(setBaseTime_frame st (e :: rest)).1] at hidx
    rw [assembleGo]
    dsimp only
    rw [if_pos (hall e (List.mem_cons_self e rest)).1,
      if_neg (List.not_mem_nil (taskKeyOf e))]
    rw [(hall e (List.mem_cons_self e rest)).2]
    unfold mapGetOrInsert
    rw [hidx]
    dsimp only
    rw [List.nil_append,
      assembleGo_allSeen heap rest [k] _
      (fun x hx => ⟨(hall x (List.mem_cons_of_mem e hx)).1,
        by rw [(hall x (List.mem_cons_of_mem e hx)).2]; exact List.mem_cons_self k []⟩)]

theorem setA_other {α β : Type} [DecidableEq α] (l : List (α × β)) (k1 k2 : α)
    (v : β) (h : k1 ≠ k2) : lookupA (setA l k1 v) k2 = lookupA l k2 := by
  induction l with
  | nil => simp [setA, lookupA, h]
  | cons hd tl ih =>
    obtain ⟨a, b⟩ := hd
    simp only [setA]
    by_cases hak : a = k1
    · subst hak
      rw [if_pos rfl]
      simp only [lookupA]
      rw [if_neg h, if_neg h]
    · rw [if_neg hak]
      simp only [lookupA]
      by_cases hak2 : a = k2
      · rw [if_pos hak2, if_pos hak2]
      · rw [if_neg hak2, if_neg hak2, ih]

theorem mapGetOrInsert_some {α β : Type} [DecidableEq α] (m : List (α × β))
    (k : α) (d v : β) (h : lookupA m k = some v) :
    mapGetOrInsert m k d = (v, m) := by
  unfold mapGetOrInsert
  rw [h]

theorem mapGetOrInsert_preserve {α β : Type} [DecidableEq α] (m : List (α × β))
    (k k' : α) (d : β) (v : β) (h : lookupA m k = some v) :
    lookupA (mapGetOrInsert m k' d).2 k = some v := by
  unfold mapGetOrInsert
  cases h1 : lookupA m k' with
  | some w => exact h
  | none =>
    dsimp only
    rw [lookupA_append, h]

theorem indexEvents_step_task (heap : Addr → String) (e : TraceEvent)
    (rest : List TraceEvent) (st : TraceBuilderState)
    (hp : packetEvent e.event_type = true) :
    ∃ st' : TraceBuilderState,
      indexEvents heap (e :: rest) st = indexEvents heap rest st' ∧
      st'.task_events = setA st.task_events (taskKeyOf e)
        ((lookupA st.task_events (taskKeyOf e)).getD [] ++ [e]) := by
  rw [indexEvents]
  dsimp only
  rw [if_pos hp]
  cases hf : e.is_finish <;>
    simp only [Bool.false_eq_true, if_false, if_true] <;>
    exact ⟨_, rfl, rfl⟩

theorem indexEvents_task_none (heap : Addr → String) :
    ∀ (evs : List TraceEvent) (st : TraceBuilderState) (k : TaskId),
    keyEvents k evs = [] →
    lookupA (indexEvents heap evs st).task_events k = lookupA st.task_events k
  | [], _, _, _ => rfl
  | e :: rest, st, k, h => by
    by_cases hp : packetEvent e.event_type = true
    · have hk : taskKeyOf e ≠ k := by
        intro hkk
        rw [show keyEvents k (e :: rest) = e :: keyEvents k rest from by
          simp [keyEvents, List.filter_cons, hp, hkk]] at h
        cases h
      have hrest : keyEvents k rest = [] := by
        simpa [keyEvents, List.filter_cons, hp, hk] using h
      obtain ⟨st', hstep, htask⟩ := indexEvents_step_task heap e rest st hp
      rw [hstep, indexEvents_task_none heap rest st' k hrest, htask,
        setA_other _ _ _ _ hk]
    · have hrest : keyEvents k rest = [] := by
        simpa [keyEvents, List.filter_cons, hp] using h
      rw [indexEvents]
      dsimp only
      rw [if_neg hp]
      exact indexEvents_task_none heap rest st k hrest

theorem indexEvents_task_some (heap : Addr → String) :
    ∀ (evs : List TraceEvent) (st : TraceBuilderState) (k : TaskId),
    keyEvents k evs ≠ [] →
    lookupA (indexEvents heap evs st).task_events k
      = some ((lookupA st.task_events k).getD [] ++ keyEvents k evs)
  | [], _, _, h => absurd rfl h
  | e :: rest, st, k, h => by
    by_cases hp : packetEvent e.event_type = true
    · by_cases hk : taskKeyOf e = k
      · obtain ⟨st', hstep, htask⟩ := indexEvents_step_task heap e rest st hp
        subst hk
        have hkey : keyEvents (taskKeyOf e) (e :: rest)
            = e :: keyEvents (taskKeyOf e) rest := by
          simp [keyEvents, List.filter_cons, hp]
        by_cases hre : keyEvents (taskKeyOf e) rest = []
        · rw [hstep, indexEvents_task_none heap rest st' _ hre, htask,
            lookupA_setA_self, hkey, hre]
        · rw [hstep, indexEvents_task_some heap rest st' _ hre, htask,
            lookupA_setA_self, hkey]
          simp
      · obtain ⟨st', hstep, htask⟩ := indexEvents_step_task heap e rest st hp
        have hkey : keyEvents k (e :: rest) = keyEvents k rest := by
          simp [keyEvents, List.filter_cons, hk]
        have hre : keyEvents k rest ≠ [] := by
          rw [hkey] at h
          exact h
        rw [hstep, indexEvents_task_some heap rest st' k hre, htask,
          setA_other _ _ _ _ hk, hkey]
    · have hkey : keyEvents k (e :: rest) = keyEvents k rest := by
        simp [keyEvents, List.filter_cons, hp]
      have hre : keyEvents k rest ≠ [] := by
        rw [hkey] at h
        exact h
      rw [indexEvents]
      dsimp only
      rw [if_neg hp, indexEvents_task_some heap rest st k hre, hkey]

theorem assembleGo_seen_mem (heap : Addr → String) :
    ∀ (evs : List TraceEvent) (seen : List TaskId) (st : TraceBuilderState)
      (k : TaskId),
    k ∈ (assembleGo heap evs seen st).2.1 ↔ (k ∈ seen ∨ k ∈ pKeys evs)
  | [], seen, st, k => by simp [assembleGo, pKeys]
  | e :: rest, seen, st, k => by
    rw [assembleGo]
    dsimp only
    split
    · rename_i hp
      split
      · rename_i hm
        rw [assembleGo_seen_mem heap rest seen st k, pKeys_cons, if_pos hp]
        simp only [List.mem_cons]
        constructor
        · rintro (h | h)
          · exact Or.inl h
          · exact Or.inr (Or.inr h)
        · rintro (h | rfl | h)
          · exact Or.inl h
          · exact Or.inl hm
          · exact Or.inr h
      · rw [assembleGo_seen_mem heap rest (seen ++ [taskKeyOf e]) _ k,
          pKeys_cons, if_pos hp]
        simp only [List.mem_append, List.mem_singleton, List.mem_cons]
        tauto
    · rename_i hp
      rw [assembleGo_seen_mem heap rest seen _ k, pKeys_cons, if_neg hp]

theorem assembleGo_append (heap : Addr → String) :
    ∀ (xs ys : List TraceEvent) (seen : List TaskId) (st : TraceBuilderState),
    assembleGo heap (xs ++ ys) seen st
      = ((assembleGo heap xs seen st).1
          ++ (assembleGo heap ys (assembleGo heap xs seen st).2.1
              (assembleGo heap xs seen st).2.2).1,
         (assembleGo heap ys (assembleGo heap xs seen st).2.1
            (assembleGo heap xs seen st).2.2).2)
  | [], ys, seen, st => by simp [assembleGo]
  | e :: xs, ys, seen, st => by
    rw [List.cons_append, assembleGo, assembleGo]
    dsimp only
    split
    · rename_i hp
      split
      · exact assembleGo_append heap xs ys seen st
      · rw [assembleGo_append heap xs ys (seen ++ [taskKeyOf e]) _]
        simp
    · rename_i hp
      rw [assembleGo_append heap xs ys seen _]
      simp

theorem assembleGo_task_preserve (heap : Addr → String) :
    ∀ (evs : List TraceEvent) (seen : List TaskId) (st : TraceBuilderState)
      (k : TaskId) (v : List TraceEvent),
    lookupA st.task_events k = some v →
    lookupA (assembleGo heap evs seen st).2.2.task_events k = some v
  | [], _, _, _, _, h => h
  | e :: rest, seen, st, k, v, h => by
    rw [assembleGo]
    dsimp only
    split
    · split
      · exact assembleGo_task_preserve heap rest seen st k v h
      · refine assembleGo_task_preserve heap rest _ _ k v ?_
        rw [(buildCalculatorTrace_frame _ heap _).1]
        exact mapGetOrInsert_preserve st.task_events k (taskKeyOf e) [] v h
    · refine assembleGo_task_preserve heap rest _ _ k v ?_
      rw [(buildEventLog_frame st heap e).1]
      exact h

/-- C2: in aggregated mode each distinct invocation key of a call's
snapshot is emitted exactly once per call, at the position of its first
occurrence in snapshot order, and its record is built from *all* events
stored under that key in the persisted invocation index.  Concretely,
for every snapshot split `xs ++ e :: ys` around a packet-detail event
`e`: if `e`'s key already occurred among the packet events of `xs`, the
call's output is the prefix assembly of `xs` followed directly by the
continuation on `ys` with unchanged bookkeeping — nothing is emitted
for `e`; if `e` is its key's first occurrence, the output is the prefix
assembly, then exactly one record for that key at this position, built
from the pre-call persisted index contents for the key (possibly
indexed by earlier calls, `reset()` not having been called) followed by
*all* of this snapshot's events with that key, then the continuation —
so this holds for every pre-call state, each call emits independently,
and there is no cross-call duplicate suppression.  The total record
count is the number of distinct packet-detail keys plus one standalone
record per non-packet event. -/
theorem aggregated_emission :
    (∀ (heap : Addr → String) (st : TraceBuilderState) (buffer : List TraceEvent)
        (b en : Int),
        (CreateTrace st heap buffer b en).1.calculator_trace.length =
          (pKeys (snapshotOf buffer b en)).toFinset.card +
          ((snapshotOf buffer b en).filter
            (fun e => !(packetEvent e.event_type))).length) ∧
    (∀ (heap : Addr → String) (st : TraceBuilderState) (buffer : List TraceEvent)
        (b en : Int) (xs : List TraceEvent) (e : TraceEvent) (ys : List TraceEvent),
        snapshotOf buffer b en = xs ++ e :: ys →
        packetEvent e.event_type = true →
        taskKeyOf e ∈ pKeys xs →
        (CreateTrace st heap buffer b en).1.calculator_trace
          = (assembleGo heap xs [] (indexedState st heap buffer b en)).1
            ++ (assembleGo heap ys
                (assembleGo heap xs [] (indexedState st heap buffer b en)).2.1
                (assembleGo heap xs [] (indexedState st heap buffer b en)).2.2).1) ∧
    (∀ (heap : Addr → String) (st : TraceBuilderState) (buffer : List TraceEvent)
        (b en : Int) (xs : List TraceEvent) (e : TraceEvent) (ys : List TraceEvent),
        snapshotOf buffer b en = xs ++ e :: ys →
        packetEvent e.event_type = true →
        taskKeyOf e ∉ pKeys xs →
        (CreateTrace st heap buffer b en).1.calculator_trace
          = (assembleGo heap xs [] (indexedState st heap buffer b en)).1
            ++ (BuildCalculatorTrace
                (assembleGo heap xs [] (indexedState st heap buffer b en)).2.2 heap
                ((lookupA st.task_events (taskKeyOf e)).getD []
                  ++ keyEvents (taskKeyOf e) (snapshotOf buffer b en))).1
              :: (assembleGo heap ys
                  ((assembleGo heap xs [] (indexedState st heap buffer b en)).2.1
                    ++ [taskKeyOf e])
                  (BuildCalculatorTrace
                    (assembleGo heap xs [] (indexedState st heap buffer b en)).2.2
                    heap
                    ((lookupA st.task_events (taskKeyOf e)).getD []
                      ++ keyEvents (taskKeyOf e)
                          (snapshotOf buffer b en))).2).1) := by
  refine ⟨?_, ?_, ?_⟩
  · intro heap st buffer b en
    unfold CreateTrace
    dsimp only
    rw [assembleGo_length heap (snapshotOf buffer b en) [] _]
    simp
  · intro heap st buffer b en xs e ys hsnap hp hmem
    unfold CreateTrace indexedState
    dsimp only
    rw [hsnap, assembleGo_append heap xs (e :: ys) [] _]
    dsimp only
    congr 1
    rw [assembleGo]
    dsimp only
    rw [if_pos hp,
      if_pos ((assembleGo_seen_mem heap xs [] _ (taskKeyOf e)).mpr (Or.inr hmem))]
  · intro heap st buffer b en xs e ys hsnap hp hmem
    unfold CreateTrace indexedState
    dsimp only
    have hkey_ne : keyEvents (taskKeyOf e) (snapshotOf buffer b en) ≠ [] := by
      rw [hsnap]
      simp [keyEvents, List.filter_append, List.filter_cons, hp]
    have hidx := indexEvents_task_some heap (snapshotOf buffer b en)
      (SetBaseTime st (snapshotOf buffer b en)) (taskKeyOf e) hkey_ne
    rw [(setBaseTime_frame st _).1] at hidx
    rw [hsnap] at hidx ⊢
    rw [assembleGo_append heap xs (e :: ys) [] _]
    dsimp only
    congr 1
    rw [assembleGo]
    dsimp only
    rw [if_pos hp,
      if_neg (fun hcon => hmem
        (((assembleGo_seen_mem heap xs [] _ _).mp hcon).resolve_left
          (List.not_mem_nil _)))]
    rw [mapGetOrInsert_some _ _ _ _
      (assembleGo_task_preserve heap xs [] _ (taskKeyOf e) _ hidx)]

/-- Witness for C2: over the three-event snapshot
`[evProd, evCons, evProd2]` (keys: node 1, node 2, node 1 again), the
first occurrence of the node-1 key (`evProd`, at the head) emits one
record built from the persisted index contents for that key plus both
node-1 snapshot events, and the second occurrence (`evProd2`, last
position) emits nothing and leaves the assembly untouched. -/
theorem aggregated_emission_witness :
    ((CreateTrace stW heap0 [evProd, evCons, evProd2] 0 1000).1.calculator_trace
      = (assembleGo heap0 [] []
          (indexedState stW heap0 [evProd, evCons, evProd2] 0 1000)).1
        ++ (BuildCalculatorTrace
            (assembleGo heap0 [] []
              (indexedState stW heap0 [evProd, evCons, evProd2] 0 1000)).2.2 heap0
            ((lookupA stW.task_events (taskKeyOf evProd)).getD []
              ++ keyEvents (taskKeyOf evProd)
                  (snapshotOf [evProd, evCons, evProd2] 0 1000))).1
          :: (assembleGo heap0 [evCons, evProd2]
              ((assembleGo heap0 [] []
                (indexedState stW heap0 [evProd, evCons, evProd2] 0 1000)).2.1
                ++ [taskKeyOf evProd])
              (BuildCalculatorTrace
                (assembleGo heap0 [] []
                  (indexedState stW heap0 [evProd, evCons, evProd2] 0 1000)).2.2
                heap0
                ((lookupA stW.task_events (taskKeyOf evProd)).getD []
                  ++ keyEvents (taskKeyOf evProd)
                      (snapshotOf [evProd, evCons, evProd2] 0 1000))).2).1) ∧
    ((CreateTrace stW heap0 [evProd, evCons, evProd2] 0 1000).1.calculator_trace
      = (assembleGo heap0 [evProd, evCons] []
          (indexedState stW heap0 [evProd, evCons, evProd2] 0 1000)).1
        ++ (assembleGo heap0 []
            (assembleGo heap0 [evProd, evCons] []
              (indexedState stW heap0 [evProd, evCons, evProd2] 0 1000)).2.1
            (assembleGo heap0 [evProd, evCons] []
              (indexedState stW heap0 [evProd, evCons, evProd2] 0 1000)).2.2).1) :=
  ⟨aggregated_emission.2.2 heap0 stW [evProd, evCons, evProd2] 0 1000
      [] evProd [evCons, evProd2] (by decide) (by decide) (by decide),
   aggregated_emission.2.1 heap0 stW [evProd, evCons, evProd2] 0 1000
      [evProd, evCons] evProd2 [] (by decide) (by decide) (by decide)⟩

/-- C7: N raw events sharing one packet-detail invocation key yield
exactly one aggregated record from one `CreateTrace` call, while one
`CreateLog` call over the same snapshot yields exactly N standalone
records (one per raw event, no grouping). -/
theorem grouping_counts :
    (∀ (heap : Addr → String) (st : TraceBuilderState) (buffer : List TraceEvent)
        (b en : Int) (k : TaskId),
        snapshotOf buffer b en ≠ [] →
        (∀ e ∈ snapshotOf buffer b en,
          packetEvent e.event_type = true ∧ taskKeyOf e = k) →
        (CreateTrace st heap buffer b en).1.calculator_trace.length = 1) ∧
    (∀ (heap : Addr → String) (st : TraceBuilderState) (buffer : List TraceEvent)
        (b en : Int),
        (CreateLog st heap buffer b en).1.calculator_trace.length =
          (snapshotOf buffer b en).length) := by
  constructor
  · intro heap st buffer b en k hne hall
    rw [createTrace_singleKey heap st buffer b en k hne hall]
    rfl
  · intro heap st buffer b en
    unfold CreateLog
    dsimp only
    exact logGo_length heap (snapshotOf buffer b en) _

/-- Witness for C7: two same-key `PROCESS` events yield one aggregated
record and two verbatim records. -/
theorem grouping_counts_witness :
    (CreateTrace stW heap0 [evProd, evProd2] 0 1000).1.calculator_trace.length = 1 ∧
    (CreateLog stW heap0 [evProd, evProd2] 0 1000).1.calculator_trace.length = 2 := by
  constructor
  · exact grouping_counts.1 heap0 stW [evProd, evProd2] 0 1000
      { id := 1, ts := some 0, event_type := 2 } (by decide) (by decide)
  · rw [grouping_counts.2 heap0 stW [evProd, evProd2] 0 1000]
    decide

/-! ### C4 and C6: interner invariants -/

theorem lookupA_append_some {α β : Type} [DecidableEq α] (l1 l2 : List (α × β))
    (k : α) (v : β) :
    lookupA (l1 ++ l2) k = some v ↔
      (lookupA l1 k = some v ∨ (lookupA l1 k = none ∧ lookupA l2 k = some v)) := by
  rw [lookupA_append]
  cases h : lookupA l1 k <;> simp

theorem lookupA_append_left {α β : Type} [DecidableEq α] (l1 l2 : List (α × β))
    (k : α) (v : β) (h : lookupA l1 k = some v) :
    lookupA (l1 ++ l2) k = some v := by
  rw [lookupA_append, h]

theorem lookupA_singleton {α β : Type} [DecidableEq α] (a k : α) (b : β) :
    lookupA [(a, b)] k = if a = k then some b else none := by
  simp [lookupA]

theorem sget_string_mono (m : StringIdMap) (heap : Addr → String) (k : Option Addr)
    (s : String) (v : Int) (h : lookupA m.string_id_map s = some v) :
    lookupA ((m.get heap k).2).string_id_map s = some v := by
  cases k with
  | none => exact h
  | some p =>
    unfold StringIdMap.get
    dsimp only
    cases h1 : lookupA m.pointer_id_map p with
    | some w => exact h
    | none =>
      cases h2 : lookupA m.string_id_map (heap p) with
      | some w => exact h
      | none => exact lookupA_append_left _ _ _ _ h

theorem sget_content_after (m : StringIdMap) (heap : Addr → String) (p : Addr)
    (hInv : SInv heap m) :
    lookupA ((m.get heap (some p)).2).string_id_map (heap p)
      = some ((m.get heap (some p)).1) := by
  unfold StringIdMap.get
  dsimp only
  cases h1 : lookupA m.pointer_id_map p with
  | some w => exact hInv.ptr_ok p w h1
  | none =>
    cases h2 : lookupA m.string_id_map (heap p) with
    | some w => exact h2
    | none =>
      dsimp only
      rw [lookupA_append, h2, lookupA_singleton, if_pos rfl]

theorem sget_inv (m : StringIdMap) (heap : Addr → String) (k : Option Addr)
    (hInv : SInv heap m) : SInv heap ((m.get heap k).2) := by
  cases k with
  | none => exact hInv
  | some p =>
    unfold StringIdMap.get
    dsimp only
    cases h1 : lookupA m.pointer_id_map p with
    | some w => exact hInv
    | none =>
      cases h2 : lookupA m.string_id_map (heap p) with
      | some w =>
        dsimp only
        refine ⟨hInv.empty_zero, hInv.pos_of_ne, hInv.ub, hInv.dense, ?_⟩
        intro q u hq
        rcases (lookupA_append_some _ _ _ _).mp hq with hq | ⟨_, hq⟩
        · exact hInv.ptr_ok q u hq
        · rw [lookupA_singleton] at hq
          split at hq
          · rename_i hpq
            cases hq
            rw [← hpq]
            exact h2
          · cases hq
      | none =>
        dsimp only
        have hnz : (0 : Int) < m.next_id := hInv.ub "" 0 hInv.empty_zero
        have hne : heap p ≠ "" := by
          intro hcon
          rw [hcon, hInv.empty_zero] at h2
          cases h2
        refine ⟨?_, ?_, ?_, ?_, ?_⟩
        · exact lookupA_append_left _ _ _ _ hInv.empty_zero
        · intro s v hs hsne
          rcases (lookupA_append_some _ _ _ _).mp hs with hs | ⟨_, hs⟩
          · exact hInv.pos_of_ne s v hs hsne
          · rw [lookupA_singleton] at hs
            split at hs
            · cases hs; omega
            · cases hs
        · intro s v hs
          dsimp only
          rcases (lookupA_append_some _ _ _ _).mp hs with hs | ⟨_, hs⟩
          · have := hInv.ub s v hs; omega
          · rw [lookupA_singleton] at hs
            split at hs
            · cases hs; omega
            · cases hs
        · intro i hi0 hilt
          dsimp only at hilt
          by_cases hieq : i = m.next_id
          · exact ⟨heap p, by
              rw [lookupA_append, h2, lookupA_singleton, if_pos rfl, hieq]⟩
          · obtain ⟨s, hs⟩ := hInv.dense i hi0 (by omega)
            exact ⟨s, lookupA_append_left _ _ _ _ hs⟩
        · intro q u hq
          rcases (lookupA_append_some _ _ _ _).mp hq with hq | ⟨_, hq⟩
          · exact lookupA_append_left _ _ _ _ (hInv.ptr_ok q u hq)
          · rw [lookupA_singleton] at hq
            split at hq
            · rename_i hpq
              cases hq
              rw [← hpq, lookupA_append, h2, lookupA_singleton, if_pos rfl]
            · cases hq

theorem sget_pos_spec (m : StringIdMap) (heap : Addr → String) (p : Addr)
    (hInv : SInv heap m) :
    ((m.get heap (some p)).1 = 0 ↔ heap p = "") ∧
    (heap p ≠ "" → 1 ≤ (m.get heap (some p)).1) := by
  have hafter := sget_content_after m heap p hInv
  have hInv2 := sget_inv m heap (some p) hInv
  constructor
  · constructor
    · intro h0
      by_contra hne
      have := hInv2.pos_of_ne (heap p) _ hafter hne
      omega
    · intro he
      rw [he, hInv2.empty_zero] at hafter
      exact (Option.some_inj.mp hafter).symm
  · intro hne
    exact hInv2.pos_of_ne (heap p) _ hafter hne

theorem aget_mono (m : AddressIdMap) (a b : Addr) (v : Int)
    (h : lookupA m.pointer_id_map a = some v) :
    lookupA ((m.get b).2).pointer_id_map a = some v := by
  unfold AddressIdMap.get
  cases h1 : lookupA m.pointer_id_map b with
  | some w => exact h
  | none => exact lookupA_append_left _ _ _ _ h

theorem aget_after (m : AddressIdMap) (a : Addr) :
    lookupA ((m.get a).2).pointer_id_map a = some ((m.get a).1) := by
  unfold AddressIdMap.get
  cases h1 : lookupA m.pointer_id_map a with
  | some w => exact h1
  | none =>
    dsimp only
    rw [lookupA_append, h1, lookupA_singleton, if_pos rfl]

theorem aget_inv (m : AddressIdMap) (a : Addr) (hInv : AInv m) :
    AInv ((m.get a).2) := by
  unfold AddressIdMap.get
  cases h1 : lookupA m.pointer_id_map a with
  | some w => exact hInv
  | none =>
    dsimp only
    have hnz : (0 : Int) < m.next_id := hInv.ub 0 0 hInv.zero_zero
    have hane : a ≠ 0 := by
      intro hcon
      rw [hcon, hInv.zero_zero] at h1
      cases h1
    refine ⟨lookupA_append_left _ _ _ _ hInv.zero_zero, ?_, ?_, ?_⟩
    · intro q v hq hqne
      rcases (lookupA_append_some _ _ _ _).mp hq with hq | ⟨_, hq⟩
      · exact hInv.pos_of_ne q v hq hqne
      · rw [lookupA_singleton] at hq
        split at hq
        · cases hq; omega
        · cases hq
    · intro q v hq
      dsimp only
      rcases (lookupA_append_some _ _ _ _).mp hq with hq | ⟨_, hq⟩
      · have := hInv.ub q v hq; omega
      · rw [lookupA_singleton] at hq
        split at hq
        · cases hq; omega
        · cases hq
    · intro i hi0 hilt
      dsimp only at hilt
      by_cases hieq : i = m.next_id
      · exact ⟨a, by rw [lookupA_append, h1, lookupA_singleton, if_pos rfl, hieq]⟩
      · obtain ⟨q, hq⟩ := hInv.dense i hi0 (by omega)
        exact ⟨q, lookupA_append_left _ _ _ _ hq⟩

theorem aget_zero_iff (m : AddressIdMap) (a : Addr) (hInv : AInv m) :
    ((m.get a).1 = 0 ↔ a = 0) := by
  have hafter := aget_after m a
  have hInv2 := aget_inv m a hInv
  constructor
  · intro h0
    by_contra hne
    have := hInv2.pos_of_ne a _ hafter hne
    omega
  · intro ha
    subst ha
    have hafter0 := aget_after m 0
    rw [(aget_inv m 0 hInv).zero_zero] at hafter0
    exact (Option.some_inj.mp hafter0).symm

theorem init_sinv (heap : Addr → String) (ea : Addr) (h : heap ea = "") :
    SInv heap (TraceBuilderState.init heap ea).stream_id_map := by
  have hval : (TraceBuilderState.init heap ea).stream_id_map =
      { pointer_id_map := [(ea, 0)], string_id_map := [("", 0)], next_id := 1 } := by
    simp [TraceBuilderState.init, StringIdMap.get, lookupA, h]
  rw [hval]
  refine ⟨by simp [lookupA], ?_, ?_, ?_, ?_⟩
  · intro s v hs hne
    rw [lookupA_singleton] at hs
    split at hs
    · rename_i hq
      exact absurd hq.symm hne
    · cases hs
  · intro s v hs
    dsimp only
    rw [lookupA_singleton] at hs
    split at hs
    · cases hs; omega
    · cases hs
  · intro i hi0 hilt
    dsimp only at hilt
    refine ⟨"", ?_⟩
    rw [lookupA_singleton, if_pos rfl]
    have : i = 0 := by omega
    rw [this]
  · intro q v hq
    rw [lookupA_singleton] at hq
    split at hq
    · rename_i hqe
      cases hq
      rw [← hqe, h, lookupA_singleton, if_pos rfl]
    · cases hq

theorem init_ainv (heap : Addr → String) (ea : Addr) :
    AInv (TraceBuilderState.init heap ea).packet_data_id_map := by
  have hval : (TraceBuilderState.init heap ea).packet_data_id_map =
      { pointer_id_map := [(0, 0)], next_id := 1 } := by
    simp [TraceBuilderState.init, AddressIdMap.get, lookupA]
  rw [hval]
  refine ⟨by simp [lookupA], ?_, ?_, ?_⟩
  · intro a v ha hne
    rw [lookupA_singleton] at ha
    split at ha
    · rename_i hq
      exact absurd hq.symm hne
    · cases ha
  · intro a v ha
    dsimp only
    rw [lookupA_singleton] at ha
    split at ha
    · cases ha; omega
    · cases ha
  · intro i hi0 hilt
    dsimp only at hilt
    refine ⟨0, ?_⟩
    rw [lookupA_singleton, if_pos rfl]
    have : i = 0 := by omega
    rw [this]

theorem runLookups_append (heap : Addr → String) :
    ∀ (ks1 ks2 : List (Option Addr)) (m : StringIdMap),
    runLookups heap m (ks1 ++ ks2) = runLookups heap (runLookups heap m ks1) ks2
  | [], _, _ => rfl
  | k :: ks1, ks2, m => by
    rw [List.cons_append, runLookups, runLookups]
    exact runLookups_append heap ks1 ks2 _

theorem runLookups_inv (heap : Addr → String) :
    ∀ (ks : List (Option Addr)) (m : StringIdMap),
    SInv heap m → SInv heap (runLookups heap m ks)
  | [], _, h => h
  | k :: ks, m, h => runLookups_inv heap ks _ (sget_inv m heap k h)

theorem runLookups_string_mono (heap : Addr → String) :
    ∀ (ks : List (Option Addr)) (m : StringIdMap) (s : String) (v : Int),
    lookupA m.string_id_map s = some v →
    lookupA (runLookups heap m ks).string_id_map s = some v
  | [], _, _, _, h => h
  | k :: ks, m, s, v, h =>
    runLookups_string_mono heap ks _ s v (sget_string_mono m heap k s v h)

theorem runALookups_append :
    ∀ (ks1 ks2 : List Addr) (m : AddressIdMap),
    runALookups m (ks1 ++ ks2) = runALookups (runALookups m ks1) ks2
  | [], _, _ => rfl
  | a :: ks1, ks2, m => by
    rw [List.cons_append, runALookups, runALookups]
    exact runALookups_append ks1 ks2 _

theorem runALookups_inv :
    ∀ (ks : List Addr) (m : AddressIdMap), AInv m → AInv (runALookups m ks)
  | [], _, h => h
  | a :: ks, m, h => runALookups_inv ks _ (aget_inv m a h)

theorem runALookups_mono :
    ∀ (ks : List Addr) (m : AddressIdMap) (a : Addr) (v : Int),
    lookupA m.pointer_id_map a = some v →
    lookupA (runALookups m ks).pointer_id_map a = some v
  | [], _, _, _, h => h
  | b :: ks, m, a, v, h => runALookups_mono ks _ a v (aget_mono m a b v h)

theorem sevolve_trans {heap : Addr → String} {m1 m2 m3 : StringIdMap}
    (h1 : ∃ ks, m2 = runLookups heap m1 ks)
    (h2 : ∃ ks, m3 = runLookups heap m2 ks) :
    ∃ ks, m3 = runLookups heap m1 ks := by
  obtain ⟨ks1, e1⟩ := h1
  obtain ⟨ks2, e2⟩ := h2
  exact ⟨ks1 ++ ks2, by rw [runLookups_append, ← e1, ← e2]⟩

theorem aevolve_trans {m1 m2 m3 : AddressIdMap}
    (h1 : ∃ ks, m2 = runALookups m1 ks)
    (h2 : ∃ ks, m3 = runALookups m2 ks) :
    ∃ ks, m3 = runALookups m1 ks := by
  obtain ⟨ks1, e1⟩ := h1
  obtain ⟨ks2, e2⟩ := h2
  exact ⟨ks1 ++ ks2, by rw [runALookups_append, ← e1, ← e2]⟩

theorem findOutputEvent_sevolve (st : TraceBuilderState) (heap : Addr → String)
    (e : TraceEvent) :
    (FindOutputEvent st heap e).2.stream_id_map
      = runLookups heap st.stream_id_map [e.stream_id] := by
  unfold FindOutputEvent
  dsimp only
  split <;> rfl

theorem buildStreamTrace_sevolve (st : TraceBuilderState) (heap : Addr → String)
    (e : TraceEvent) :
    ∃ ks, (BuildStreamTrace st heap e).2.stream_id_map
      = runLookups heap st.stream_id_map ks := by
  unfold BuildStreamTrace
  split
  · exact ⟨[e.stream_id], rfl⟩
  · refine ⟨[e.stream_id, e.stream_id], ?_⟩
    dsimp only
    rw [findOutputEvent_sevolve]
    rfl

theorem buildStreamTrace_aevolve (st : TraceBuilderState) (heap : Addr → String)
    (e : TraceEvent) :
    ∃ ks, (BuildStreamTrace st heap e).2.packet_data_id_map
      = runALookups st.packet_data_id_map ks := by
  unfold BuildStreamTrace
  split
  · exact ⟨[], rfl⟩
  · refine ⟨[e.packet_data_id], ?_⟩
    dsimp only
    rw [(findOutputEvent_frame _ heap e).2.1]
    rfl

theorem buildEventLog_sevolve (st : TraceBuilderState) (heap : Addr → String)
    (e : TraceEvent) :
    ∃ ks, (BuildEventLog st heap e).2.stream_id_map
      = runLookups heap st.stream_id_map ks := by
  unfold BuildEventLog
  dsimp only
  split
  · split
    · split <;> exact ⟨[e.stream_id], rfl⟩
    · exact ⟨[], rfl⟩
  · exact ⟨[], rfl⟩

theorem buildEventLog_aevolve (st : TraceBuilderState) (heap : Addr → String)
    (e : TraceEvent) :
    ∃ ks, (BuildEventLog st heap e).2.packet_data_id_map
      = runALookups st.packet_data_id_map ks := by
  unfold BuildEventLog
  dsimp only
  split
  · split
    · split <;> exact ⟨[e.packet_data_id], rfl⟩
    · exact ⟨[], rfl⟩
  · exact ⟨[], rfl⟩

theorem calcTraceGo_sevolve (heap : Addr → String) :
    ∀ (evs : List TraceEvent) (r : CalculatorTrace) (s f : Option Int)
      (st : TraceBuilderState),
    ∃ ks, (calcTraceGo heap evs r s f st).2.2.2.stream_id_map
      = runLookups heap st.stream_id_map ks
  | [], _, _, _, _ => ⟨[], rfl⟩
  | e :: rest, r, s, f, st => by
    rw [calcTraceGo]
    dsimp only
    split
    · split <;>
        exact sevolve_trans (buildStreamTrace_sevolve st heap e)
          (calcTraceGo_sevolve heap rest _ _ _ _)
    · exact calcTraceGo_sevolve heap rest _ _ _ st

theorem calcTraceGo_aevolve (heap : Addr → String) :
    ∀ (evs : List TraceEvent) (r : CalculatorTrace) (s f : Option Int)
      (st : TraceBuilderState),
    ∃ ks, (calcTraceGo heap evs r s f st).2.2.2.packet_data_id_map
      = runALookups st.packet_data_id_map ks
  | [], _, _, _, _ => ⟨[], rfl⟩
  | e :: rest, r, s, f, st => by
    rw [calcTraceGo]
    dsimp only
    split
    · split <;>
        exact aevolve_trans (buildStreamTrace_aevolve st heap e)
          (calcTraceGo_aevolve heap rest _ _ _ _)
    · exact calcTraceGo_aevolve heap rest _ _ _ st

theorem buildCalculatorTrace_sevolve (st : TraceBuilderState) (heap : Addr → String)
    (evs : List TraceEvent) :
    ∃ ks, (BuildCalculatorTrace st heap evs).2.stream_id_map
      = runLookups heap st.stream_id_map ks := by
  unfold BuildCalculatorTrace
  dsimp only
  exact calcTraceGo_sevolve heap evs _ none none st

theorem buildCalculatorTrace_aevolve (st : TraceBuilderState) (heap : Addr → String)
    (evs : List TraceEvent) :
    ∃ ks, (BuildCalculatorTrace st heap evs).2.packet_data_id_map
      = runALookups st.packet_data_id_map ks := by
  unfold BuildCalculatorTrace
  dsimp only
  exact calcTraceGo_aevolve heap evs _ none none st

theorem indexEvents_sevolve (heap : Addr → String) :
    ∀ (evs : List TraceEvent) (st : TraceBuilderState),
    ∃ ks, (indexEvents heap evs st).stream_id_map
      = runLookups heap st.stream_id_map ks
  | [], _ => ⟨[], rfl⟩
  | e :: rest, st => by
    rw [indexEvents]
    dsimp only
    split
    · have h1 : ∃ ks, (st.stream_id_map.get heap e.stream_id).2
          = runLookups heap st.stream_id_map ks := ⟨[e.stream_id], rfl⟩
      refine sevolve_trans h1 ?_
      split <;> exact indexEvents_sevolve heap rest _
    · exact indexEvents_sevolve heap rest st

theorem assembleGo_sevolve (heap : Addr → String) :
    ∀ (evs : List TraceEvent) (seen : List TaskId) (st : TraceBuilderState),
    ∃ ks, (assembleGo heap evs seen st).2.2.stream_id_map
      = runLookups heap st.stream_id_map ks
  | [], _, _ => ⟨[], rfl⟩
  | e :: rest, seen, st => by
    rw [assembleGo]
    dsimp only
    split
    · split
      · exact assembleGo_sevolve heap rest seen st
      · exact sevolve_trans
          (buildCalculatorTrace_sevolve
            { st with task_events := (mapGetOrInsert st.task_events (taskKeyOf e) []).2 }
            heap (mapGetOrInsert st.task_events (taskKeyOf e) []).1)
          (assembleGo_sevolve heap rest _ _)
    · exact sevolve_trans (buildEventLog_sevolve st heap e)
        (assembleGo_sevolve heap rest _ _)

theorem assembleGo_aevolve (heap : Addr → String) :
    ∀ (evs : List TraceEvent) (seen : List TaskId) (st : TraceBuilderState),
    ∃ ks, (assembleGo heap evs seen st).2.2.packet_data_id_map
      = runALookups st.packet_data_id_map ks
  | [], _, _ => ⟨[], rfl⟩
  | e :: rest, seen, st => by
    rw [assembleGo]
    dsimp only
    split
    · split
      · exact assembleGo_aevolve heap rest seen st
      · exact aevolve_trans
          (buildCalculatorTrace_aevolve
            { st with task_events := (mapGetOrInsert st.task_events (taskKeyOf e) []).2 }
            heap (mapGetOrInsert st.task_events (taskKeyOf e) []).1)
          (assembleGo_aevolve heap rest _ _)
    · exact aevolve_trans (buildEventLog_aevolve st heap e)
        (assembleGo_aevolve heap rest _ _)

theorem logGo_sevolve (heap : Addr → String) :
    ∀ (evs : List TraceEvent) (st : TraceBuilderState),
    ∃ ks, (logGo heap evs st).2.stream_id_map
      = runLookups heap st.stream_id_map ks
  | [], _ => ⟨[], rfl⟩
  | e :: rest, st => by
    rw [logGo]
    dsimp only
    exact sevolve_trans (buildEventLog_sevolve st heap e)
      (logGo_sevolve heap rest _)

theorem logGo_aevolve (heap : Addr → String) :
    ∀ (evs : List TraceEvent) (st : TraceBuilderState),
    ∃ ks, (logGo heap evs st).2.packet_data_id_map
      = runALookups st.packet_data_id_map ks
  | [], _ => ⟨[], rfl⟩
  | e :: rest, st => by
    rw [logGo]
    dsimp only
    exact aevolve_trans (buildEventLog_aevolve st heap e)
      (logGo_aevolve heap rest _)

theorem createTrace_sevolve (st : TraceBuilderState) (heap : Addr → String)
    (buffer : List TraceEvent) (b en : Int) :
    ∃ ks, (CreateTrace st heap buffer b en).2.stream_id_map
      = runLookups heap st.stream_id_map ks := by
  unfold CreateTrace
  dsimp only
  exact sevolve_trans
    (sevolve_trans ⟨[], (setBaseTime_frame st _).2.2.1⟩
      (indexEvents_sevolve heap _ _))
    (assembleGo_sevolve heap _ _ _)

theorem createTrace_aevolve (st : TraceBuilderState) (heap : Addr → String)
    (buffer : List TraceEvent) (b en : Int) :
    ∃ ks, (CreateTrace st heap buffer b en).2.packet_data_id_map
      = runALookups st.packet_data_id_map ks := by
  unfold CreateTrace
  dsimp only
  have h1 : ∃ ks, (indexEvents heap (snapshotOf buffer b en)
      (SetBaseTime st (snapshotOf buffer b en))).packet_data_id_map
        = runALookups st.packet_data_id_map ks :=
    ⟨[], by
      rw [(indexEvents_frame heap _ _).1, (setBaseTime_frame st _).2.2.2]
      rfl⟩
  exact aevolve_trans h1 (assembleGo_aevolve heap _ _ _)

theorem createLog_sevolve (st : TraceBuilderState) (heap : Addr → String)
    (buffer : List TraceEvent) (b en : Int) :
    ∃ ks, (CreateLog st heap buffer b en).2.stream_id_map
      = runLookups heap st.stream_id_map ks := by
  unfold CreateLog
  dsimp only
  exact sevolve_trans ⟨[], (setBaseTime_frame st _).2.2.1⟩
    (logGo_sevolve heap _ _)

theorem createLog_aevolve (st : TraceBuilderState) (heap : Addr → String)
    (buffer : List TraceEvent) (b en : Int) :
    ∃ ks, (CreateLog st heap buffer b en).2.packet_data_id_map
      = runALookups st.packet_data_id_map ks := by
  unfold CreateLog
  dsimp only
  exact aevolve_trans ⟨[], (setBaseTime_frame st _).2.2.2⟩
    (logGo_aevolve heap _ _)

theorem sget_of_content (m : StringIdMap) (heap : Addr → String) (p : Addr) (v : Int)
    (hInv : SInv heap m) (hc : lookupA m.string_id_map (heap p) = some v) :
    (m.get heap (some p)).1 = v := by
  unfold StringIdMap.get
  dsimp only
  cases h1 : lookupA m.pointer_id_map p with
  | some w =>
    have hw := hInv.ptr_ok p w h1
    rw [hc] at hw
    exact (Option.some_inj.mp hw).symm
  | none =>
    rw [hc]

theorem aget_of_mem (m : AddressIdMap) (a : Addr) (v : Int)
    (h : lookupA m.pointer_id_map a = some v) : (m.get a).1 = v := by
  unfold AddressIdMap.get
  rw [h]

/-- C4: id 0 is reserved for the null/absent stream and packet in both
interners, starting from the seeded builder state and preserved by
every lookup either output mode performs: a lookup returns 0 exactly
for the null pointer / the reserved empty content (string variant) or
the null address (address variant), and every real key gets an id
`≥ 1`; a null-stream event yields no transfer at all in verbatim mode,
and in aggregated mode its transfer carries `stream_id = 0`, which — by
the invariant — is never the id of any real stream. -/
theorem reserved_zero :
    (∀ (heap : Addr → String) (ea : Addr), heap ea = "" →
        SInv heap (TraceBuilderState.init heap ea).stream_id_map ∧
        AInv (TraceBuilderState.init heap ea).packet_data_id_map) ∧
    (∀ (heap : Addr → String) (m : StringIdMap), SInv heap m →
        (m.get heap none).1 = 0 ∧
        (∀ p : Addr, ((m.get heap (some p)).1 = 0 ↔ heap p = "") ∧
          (heap p ≠ "" → 1 ≤ (m.get heap (some p)).1))) ∧
    (∀ m : AddressIdMap, AInv m →
        ∀ a : Addr, ((m.get a).1 = 0 ↔ a = 0) ∧ (a ≠ 0 → 1 ≤ (m.get a).1)) ∧
    (∀ (heap : Addr → String) (st : TraceBuilderState) (buffer : List TraceEvent)
        (b en : Int), SInv heap st.stream_id_map →
        SInv heap (CreateTrace st heap buffer b en).2.stream_id_map ∧
        SInv heap (CreateLog st heap buffer b en).2.stream_id_map) ∧
    (∀ (heap : Addr → String) (st : TraceBuilderState) (buffer : List TraceEvent)
        (b en : Int), AInv st.packet_data_id_map →
        AInv (CreateTrace st heap buffer b en).2.packet_data_id_map ∧
        AInv (CreateLog st heap buffer b en).2.packet_data_id_map) ∧
    (∀ (st : TraceBuilderState) (heap : Addr → String) (e : TraceEvent),
        e.stream_id = none →
        (BuildEventLog st heap e).1.input_trace = [] ∧
        (BuildEventLog st heap e).1.output_trace = []) ∧
    (∀ (st : TraceBuilderState) (heap : Addr → String) (e : TraceEvent),
        e.stream_id = none →
        (BuildStreamTrace st heap e).1.stream_id = some 0) := by
  refine ⟨?_, ?_, ?_, ?_, ?_, ?_, ?_⟩
  · exact fun heap ea h => ⟨init_sinv heap ea h, init_ainv heap ea⟩
  · intro heap m hInv
    exact ⟨rfl, fun p => sget_pos_spec m heap p hInv⟩
  · intro m hInv a
    refine ⟨aget_zero_iff m a hInv, ?_⟩
    intro hne
    exact (aget_inv m a hInv).pos_of_ne a _ (aget_after m a) hne
  · intro heap st buffer b en hInv
    constructor
    · obtain ⟨ks, hks⟩ := createTrace_sevolve st heap buffer b en
      rw [hks]
      exact runLookups_inv heap ks _ hInv
    · obtain ⟨ks, hks⟩ := createLog_sevolve st heap buffer b en
      rw [hks]
      exact runLookups_inv heap ks _ hInv
  · intro heap st buffer b en hInv
    constructor
    · obtain ⟨ks, hks⟩ := createTrace_aevolve st heap buffer b en
      rw [hks]
      exact runALookups_inv ks _ hInv
    · obtain ⟨ks, hks⟩ := createLog_aevolve st heap buffer b en
      rw [hks]
      exact runALookups_inv ks _ hInv
  · intro st heap e h
    unfold BuildEventLog
    cases hf : e.is_finish <;> cases hst : streamEvent e.event_type <;>
      cases hits : e.input_ts <;>
      simp [hf, hst, hits, h, tsUnset]
  · intro st heap e h
    unfold BuildStreamTrace
    cases hf : e.is_finish <;> simp [hf, h, StringIdMap.get]

/-- Witness for C4: the seeded builder satisfies both invariants; with
them, a real stream pointer never receives id 0 and the reserved
queries return 0; the invariant survives a whole aggregated call;
null-stream events yield no verbatim transfer, and an aggregated
transfer with stream id 0. -/
theorem reserved_zero_witness :
    (((TraceBuilderState.init heap0 0).stream_id_map.get heap0 (some 5)).1 = 0
        ↔ heap0 5 = "") ∧
    (((TraceBuilderState.init heap0 0).packet_data_id_map.get 7).1 = 0
        ↔ (7 : Addr) = 0) ∧
    SInv heap0
      (CreateTrace (TraceBuilderState.init heap0 0) heap0 [evProd, evCons]
        0 1000).2.stream_id_map ∧
    (BuildEventLog stW heap0 evGpu1).1.input_trace = [] ∧
    (BuildStreamTrace stW heap0 evGpu2).1.stream_id = some 0 := by
  have hi := reserved_zero.1 heap0 0 (by decide)
  exact ⟨((reserved_zero.2.1 heap0 _ hi.1).2 5).1,
    (reserved_zero.2.2.1 _ hi.2 7).1,
    (reserved_zero.2.2.2.1 heap0 (TraceBuilderState.init heap0 0)
      [evProd, evCons] 0 1000 hi.1).1,
    (reserved_zero.2.2.2.2.2.1 stW heap0 evGpu1 (by decide)).1,
    reserved_zero.2.2.2.2.2.2 stW heap0 evGpu2 (by decide)⟩

/-- C6: interner stability and density.  Two string-interner lookups
with pointers of equal content return the same id, across any
interleaved lookups, starting from the seeded builder interner; two
address-interner lookups of the same address return the same id from
any starting map; in every reachable string interner the real
(non-empty) contents hold exactly the ids `1 .. next_id - 1` (dense,
starting at 1), and likewise for real (non-null) addresses; a null key
always yields 0 in both variants. -/
theorem interner_stability :
    (∀ (heap : Addr → String) (ea : Addr) (ks1 ks2 : List (Option Addr))
        (p1 p2 : Addr), heap ea = "" → heap p1 = heap p2 →
        ((runLookups heap
            ((runLookups heap (TraceBuilderState.init heap ea).stream_id_map
              ks1).get heap (some p1)).2 ks2).get heap (some p2)).1
          = ((runLookups heap (TraceBuilderState.init heap ea).stream_id_map
              ks1).get heap (some p1)).1) ∧
    (∀ (m0 : AddressIdMap) (ks1 ks2 : List Addr) (a : Addr),
        ((runALookups ((runALookups m0 ks1).get a).2 ks2).get a).1
          = ((runALookups m0 ks1).get a).1) ∧
    (∀ (heap : Addr → String) (ea : Addr) (ks : List (Option Addr)),
        heap ea = "" →
        (∀ (s : String) (v : Int),
          lookupA (runLookups heap (TraceBuilderState.init heap ea).stream_id_map
            ks).string_id_map s = some v → s ≠ "" →
          1 ≤ v ∧ v < (runLookups heap
            (TraceBuilderState.init heap ea).stream_id_map ks).next_id) ∧
        (∀ i : Int, 1 ≤ i →
          i < (runLookups heap (TraceBuilderState.init heap ea).stream_id_map
            ks).next_id →
          ∃ s, s ≠ "" ∧ lookupA (runLookups heap
            (TraceBuilderState.init heap ea).stream_id_map ks).string_id_map s
              = some i)) ∧
    (∀ (m0 : AddressIdMap) (ks : List Addr), AInv m0 →
        (∀ (a : Addr) (v : Int),
          lookupA (runALookups m0 ks).pointer_id_map a = some v → a ≠ 0 →
          1 ≤ v ∧ v < (runALookups m0 ks).next_id) ∧
        (∀ i : Int, 1 ≤ i → i < (runALookups m0 ks).next_id →
          ∃ a, a ≠ 0 ∧ lookupA (runALookups m0 ks).pointer_id_map a = some i)) ∧
    (∀ (heap : Addr → String) (m : StringIdMap), (m.get heap none).1 = 0) ∧
    (∀ m : AddressIdMap, AInv m → (m.get 0).1 = 0) := by
  refine ⟨?_, ?_, ?_, ?_, fun heap m => rfl, ?_⟩
  · intro heap ea ks1 ks2 p1 p2 hea hp
    have hInv1 : SInv heap
        (runLookups heap (TraceBuilderState.init heap ea).stream_id_map ks1) :=
      runLookups_inv heap ks1 _ (init_sinv heap ea hea)
    have hc1 := sget_content_after _ heap p1 hInv1
    have hc2 := runLookups_string_mono heap ks2 _ (heap p1) _ hc1
    have hInv3 : SInv heap (runLookups heap _ ks2) :=
      runLookups_inv heap ks2 _ (sget_inv _ heap (some p1) hInv1)
    rw [hp] at hc2
    exact sget_of_content _ heap p2 _ hInv3 hc2
  · intro m0 ks1 ks2 a
    have hc := aget_after (runALookups m0 ks1) a
    have hc2 := runALookups_mono ks2 _ a _ hc
    exact aget_of_mem _ a _ hc2
  · intro heap ea ks hea
    have hInv : SInv heap
        (runLookups heap (TraceBuilderState.init heap ea).stream_id_map ks) :=
      runLookups_inv heap ks _ (init_sinv heap ea hea)
    constructor
    · exact fun s v hs hne => ⟨hInv.pos_of_ne s v hs hne, hInv.ub s v hs⟩
    · intro i hi1 hilt
      obtain ⟨s, hs⟩ := hInv.dense i (by omega) hilt
      refine ⟨s, ?_, hs⟩
      intro hcon
      rw [hcon, hInv.empty_zero] at hs
      have := Option.some_inj.mp hs
      omega
  · intro m0 ks hInv0
    have hInv : AInv (runALookups m0 ks) := runALookups_inv ks m0 hInv0
    constructor
    · exact fun a v ha hne => ⟨hInv.pos_of_ne a v ha hne, hInv.ub a v ha⟩
    · intro i hi1 hilt
      obtain ⟨a, ha⟩ := hInv.dense i (by omega) hilt
      refine ⟨a, ?_, ha⟩
      intro hcon
      rw [hcon, hInv.zero_zero] at ha
      have := Option.some_inj.mp ha
      omega
  · exact fun m hInv => aget_of_mem m 0 0 hInv.zero_zero

/-- Witness for C6: pointers 5 and 6 hold the same content "s" under
`heap1`, and looking them up across interleaved lookups returns the
same id; the same address returns the same id across lookups; the
seeded interner after interning "s" assigns it id 1 (dense from 1); the
reserved null queries return 0. -/
theorem interner_stability_witness :
    (((runLookups heap1
        ((runLookups heap1 (TraceBuilderState.init heap1 0).stream_id_map
          [some 5]).get heap1 (some 5)).2 [some 9]).get heap1 (some 6)).1
      = ((runLookups heap1 (TraceBuilderState.init heap1 0).stream_id_map
          [some 5]).get heap1 (some 5)).1) ∧
    (((runALookups ((runALookups amW [7]).get 9).2 [8]).get 9).1
      = ((runALookups amW [7]).get 9).1) ∧
    (1 ≤ (1 : Int) ∧ (1 : Int) <
      (runLookups heap1 (TraceBuilderState.init heap1 0).stream_id_map
        [some 5]).next_id) ∧
    (∃ s, s ≠ "" ∧ lookupA (runLookups heap1
      (TraceBuilderState.init heap1 0).stream_id_map [some 5]).string_id_map s
        = some 1) ∧
    ((TraceBuilderState.init heap0 0).packet_data_id_map.get 0).1 = 0 := by
  refine ⟨interner_stability.1 heap1 0 [some 5] [some 9] 5 6 (by decide) (by decide),
    interner_stability.2.1 amW [7] [8] 9,
    (interner_stability.2.2.1 heap1 0 [some 5] (by decide)).1 "s" 1 (by decide)
      (by decide),
    (interner_stability.2.2.1 heap1 0 [some 5] (by decide)).2 1 (by decide)
      (by decide),
    interner_stability.2.2.2.2.2 _ (init_ainv heap0 0)⟩

end TraceBuilderModel
